import Mathlib

/-!
Verification of the todos storage layer.

This file gives a shallow embedding of the repository code:
  * todos/utils.py            (validation and ordering helpers)
  * todos/session_persistence.py  (class SessionPersistence)
  * todos/database_persistence.py (class DatabasePersistence)

Modelling conventions:
  * Python dicts that play the role of records become Lean structures whose
    fields are exactly the keys the source writes.
  * The random token from uuid4() in the session variant is modelled by a
    deterministic fresh-token counter carried in the state; the only property
    of uuid4 the code relies on is freshness.
  * Each SQL statement of DatabasePersistence is modelled as a pure
    transformation of a table state.  Tables are lists of rows in insertion
    order; SELECT without ORDER BY is modelled as returning table order.
    The schema constraints from _setup_schema (varchar(100), UNIQUE title,
    serial primary keys, foreign key with ON DELETE CASCADE) are part of
    the model; statements that violate a constraint fail.
  * A Python exception is modelled as Except.error for the relational
    variant and as Option.none for the session variant; a normal return of
    None (for example find_list on a missing id) is a value, not an error.
-/

namespace Todos

/-- Todo record of the session variant.  Its fields are exactly the keys of
the dict literal built in SessionPersistence.create_new_todo:
id, title, completed.  There is no list_id key. -/
structure STodo where
  id : Nat
  title : String
  completed : Bool
deriving Repr, DecidableEq

/-- List record of the session variant, as built in
SessionPersistence.create_new_list: id, title, todos. -/
structure SList where
  id : Nat
  title : String
  todos : List STodo
deriving Repr, DecidableEq

/-- State of SessionPersistence: the value of session, plus the
session.modified flag and the fresh-token counter modelling uuid4. -/
structure Sess where
  lists : List SList
  nextToken : Nat
  modified : Bool
deriving Repr, DecidableEq

/-- The session created by the constructor when the key lists is absent. -/
def Sess.init : Sess := { lists := [], nextToken := 0, modified := false }

/-- Replace the first element satisfying p by its image under f, as Python
does when it mutates the object returned by a first-match search. -/
def modifyFirst {α : Type} (p : α → Bool) (f : α → α) : List α → List α
  | [] => []
  | x :: xs => if p x then f x :: xs else x :: modifyFirst p f xs

/-- SessionPersistence.find_list: first list with the given id, or None. -/
def Sess.find_list (s : Sess) (list_id : Nat) : Option SList :=
  s.lists.find? (fun lst => lst.id == list_id)

/-- SessionPersistence.all_lists. -/
def Sess.all_lists (s : Sess) : List SList := s.lists

/-- SessionPersistence.create_new_list: appends a fresh list with no todos. -/
def Sess.create_new_list (s : Sess) (title : String) : Sess :=
  { lists := s.lists ++ [{ id := s.nextToken, title := title, todos := [] }],
    nextToken := s.nextToken + 1,
    modified := true }

/-- SessionPersistence.update_list_by_id: if the id is found the title of the
first matching list is overwritten, otherwise nothing happens (the modified
flag is only set in the found branch). -/
def Sess.update_list_by_id (s : Sess) (id : Nat) (new_title : String) : Sess :=
  match s.find_list id with
  | some _ =>
    { s with
      lists := modifyFirst (fun lst => lst.id == id)
                 (fun lst => { lst with title := new_title }) s.lists,
      modified := true }
  | none => s

/-- SessionPersistence.delete_list: keeps the lists whose id differs. -/
def Sess.delete_list (s : Sess) (id : Nat) : Sess :=
  { s with lists := s.lists.filter (fun lst => lst.id != id), modified := true }

/-- SessionPersistence.create_new_todo: appends a todo dict with keys
id, title, completed to the found list; when the list id is absent,
find_list returns None and the subscript on None raises (modelled none). -/
def Sess.create_new_todo (s : Sess) (list_id : Nat) (todo_title : String) :
    Option Sess :=
  match s.find_list list_id with
  | none => none
  | some _ =>
    some { s with
      lists := modifyFirst (fun lst => lst.id == list_id)
        (fun lst => { lst with
          todos := lst.todos ++
            [{ id := s.nextToken, title := todo_title, completed := false }] })
        s.lists,
      nextToken := s.nextToken + 1,
      modified := true }

/-- SessionPersistence.delete_todo_from_list: filters the todos of the found
list; raises (none) when the list id is absent. -/
def Sess.delete_todo_from_list (s : Sess) (list_id todo_id : Nat) :
    Option Sess :=
  match s.find_list list_id with
  | none => none
  | some _ =>
    some { s with
      lists := modifyFirst (fun lst => lst.id == list_id)
        (fun lst => { lst with
          todos := lst.todos.filter (fun td => td.id != todo_id) }) s.lists,
      modified := true }

/-- SessionPersistence.update_todo_status: looks the todo up with next()
without a default, so a missing list or todo raises (none). -/
def Sess.update_todo_status (s : Sess) (list_id todo_id : Nat)
    (new_status : Bool) : Option Sess :=
  match s.find_list list_id with
  | none => none
  | some lst =>
    match lst.todos.find? (fun td => td.id == todo_id) with
    | none => none
    | some _ =>
      some { s with
        lists := modifyFirst (fun l => l.id == list_id)
          (fun l => { l with
            todos := modifyFirst (fun td => td.id == todo_id)
              (fun td => { td with completed := new_status }) l.todos })
          s.lists,
        modified := true }

/-- SessionPersistence.mark_all_todos_completed: sets every completed flag of
the found list; raises (none) when the list id is absent. -/
def Sess.mark_all_todos_completed (s : Sess) (list_id : Nat) : Option Sess :=
  match s.find_list list_id with
  | none => none
  | some _ =>
    some { s with
      lists := modifyFirst (fun lst => lst.id == list_id)
        (fun lst => { lst with
          todos := lst.todos.map (fun td => { td with completed := true }) })
        s.lists,
      modified := true }

/-- A row of the lists table: id serial PRIMARY KEY, title varchar(100). -/
structure ListRow where
  id : Nat
  title : String
deriving Repr, DecidableEq

/-- A row of the todos table: id serial, title varchar(100),
completed boolean DEFAULT false, list_id REFERENCES lists ON DELETE CASCADE. -/
structure TodoRow where
  id : Nat
  title : String
  completed : Bool
  list_id : Nat
deriving Repr, DecidableEq

/-- State of the relational store: both tables in insertion order together
with the two serial sequences. -/
structure DB where
  lists : List ListRow
  todos : List TodoRow
  next_list_id : Nat
  next_todo_id : Nat
deriving Repr, DecidableEq

/-- The empty database produced by _setup_schema; serial columns start at 1. -/
def DB.init : DB := { lists := [], todos := [], next_list_id := 1, next_todo_id := 1 }

/-- The varchar(100) column constraint of both tables. -/
def titleOk (t : String) : Bool := t.length ≤ 100

/-- DatabasePersistence._find_todos_for_list:
SELECT * FROM todos WHERE list_id = %s. -/
def DB.find_todos_for_list (db : DB) (list_id : Nat) : List TodoRow :=
  db.todos.filter (fun td => td.list_id == list_id)

/-- The dict a list read builds: the columns of a lists row plus the todos
key set by setdefault. -/
structure ListView where
  id : Nat
  title : String
  todos : List TodoRow
deriving Repr, DecidableEq

/-- DatabasePersistence.all_lists: every lists row with its todos fetched
per list. -/
def DB.all_lists (db : DB) : List ListView :=
  db.lists.map (fun row =>
    { id := row.id, title := row.title, todos := db.find_todos_for_list row.id })

/-- DatabasePersistence.find_list: SELECT ... WHERE id = %s then
dict(cursor.fetchone()).  When no row matches, fetchone() returns None and
dict(None) raises TypeError, modelled as Except.error. -/
def DB.find_list (db : DB) (list_id : Nat) : Except Unit ListView :=
  match db.lists.find? (fun row => row.id == list_id) with
  | none => .error ()
  | some row =>
    .ok { id := row.id, title := row.title, todos := db.find_todos_for_list list_id }

/-- DatabasePersistence.create_new_list: INSERT INTO lists (title).  The
insert fails on a varchar(100) overflow or a UNIQUE violation. -/
def DB.create_new_list (db : DB) (title : String) : Except Unit DB :=
  if titleOk title && db.lists.all (fun row => row.title != title) then
    .ok { db with
      lists := db.lists ++ [{ id := db.next_list_id, title := title }],
      next_list_id := db.next_list_id + 1 }
  else .error ()

/-- DatabasePersistence.update_list_by_id: UPDATE lists SET title WHERE id.
Zero matched rows is a successful no-op; otherwise the new value must satisfy
varchar(100) and stay unique against the other rows. -/
def DB.update_list_by_id (db : DB) (list_id : Nat) (new_title : String) :
    Except Unit DB :=
  if db.lists.all (fun row => row.id != list_id) then .ok db
  else if titleOk new_title &&
      db.lists.all (fun row => row.id == list_id || row.title != new_title) then
    .ok { db with
      lists := db.lists.map (fun row =>
        if row.id == list_id then { row with title := new_title } else row) }
  else .error ()

/-- DatabasePersistence.delete_list: DELETE FROM lists WHERE id; the foreign
key ON DELETE CASCADE removes the todos of that list. -/
def DB.delete_list (db : DB) (list_id : Nat) : DB :=
  { db with
    lists := db.lists.filter (fun row => row.id != list_id),
    todos := db.todos.filter (fun td => td.list_id != list_id) }

/-- DatabasePersistence.create_new_todo: INSERT INTO todos (list_id, title);
completed defaults to false; fails on varchar(100) overflow or a foreign key
violation. -/
def DB.create_new_todo (db : DB) (list_id : Nat) (todo_title : String) :
    Except Unit DB :=
  if titleOk todo_title && db.lists.any (fun row => row.id == list_id) then
    .ok { db with
      todos := db.todos ++
        [{ id := db.next_todo_id, title := todo_title, completed := false,
           list_id := list_id }],
      next_todo_id := db.next_todo_id + 1 }
  else .error ()

/-- DatabasePersistence.delete_todo_from_list:
DELETE FROM todos WHERE list_id = %s AND id = %s. -/
def DB.delete_todo_from_list (db : DB) (list_id todo_id : Nat) : DB :=
  { db with
    todos := db.todos.filter (fun td => !(td.list_id == list_id && td.id == todo_id)) }

/-- DatabasePersistence.update_todo_status:
UPDATE todos SET completed = %s WHERE list_id = %s and id = %s. -/
def DB.update_todo_status (db : DB) (list_id todo_id : Nat) (new_status : Bool) : DB :=
  { db with
    todos := db.todos.map (fun td =>
      if td.list_id == list_id && td.id == todo_id then
        { td with completed := new_status } else td) }

/-- DatabasePersistence.mark_all_todos_completed:
UPDATE todos SET completed = True WHERE list_id = %s. -/
def DB.mark_all_todos_completed (db : DB) (list_id : Nat) : DB :=
  { db with
    todos := db.todos.map (fun td =>
      if td.list_id == list_id then { td with completed := true } else td) }

/-- utils.error_for_list_title.  The lists argument is duck-typed in Python;
the embedding takes the title projection as a parameter. -/
def error_for_list_title {α : Type} (tl : α → String) (title : String)
    (lists : List α) : Option String :=
  if lists.any (fun lst => tl lst == title) then
    some "The title must be unique."
  else if !(1 ≤ title.length && title.length ≤ 100) then
    some "The title must be between 1 and 100 characters"
  else none

/-- utils.error_for_todo. -/
def error_for_todo (title : String) : Option String :=
  if !(1 ≤ title.length && title.length ≤ 100) then
    some "Todo title must be between 1 and 100 characters"
  else none

/-- utils.find_todo_by_id. -/
def find_todo_by_id (todo_id : Nat) (todos : List STodo) : Option STodo :=
  todos.find? (fun td => td.id == todo_id)

/-- utils.todos_remaining: the number of todos whose completed flag is false. -/
def todos_remaining (lst : SList) : Nat :=
  (lst.todos.filter (fun td => !td.completed)).length

/-- utils.is_list_completed. -/
def is_list_completed (lst : SList) : Bool :=
  decide (lst.todos.length > 0) && todos_remaining lst == 0

/-- utils.is_todo_completed. -/
def is_todo_completed (td : STodo) : Bool := td.completed

/-- Values storable in a Python dict of this code base. -/
inductive DVal where
  | s : String → DVal
  | b : Bool → DVal
  | n : Nat → DVal
deriving Repr, DecidableEq

/-- The dict literal appended by SessionPersistence.create_new_todo, as a
key-value list: exactly the keys id, title, completed. -/
def STodo.toDict (td : STodo) : List (String × DVal) :=
  [("id", DVal.n td.id), ("title", DVal.s td.title), ("completed", DVal.b td.completed)]

/-- Lexicographic order on character sequences by code point: exactly how
Python compares two strings. -/
def lexLe : List Char → List Char → Bool
  | [], _ => true
  | _ :: _, [] => false
  | a :: as, b :: bs =>
    if a.toNat < b.toNat then true
    else if b.toNat < a.toNat then false
    else lexLe as bs

/-- The sort key of utils.sort_items: the character sequence of the
lowercased title, as in sorted(items, key=lambda item: item[title].lower()).
Lowercasing acts per character. -/
def lowerKey {α : Type} (tl : α → String) (x : α) : List Char :=
  (tl x).data.map Char.toLower

/-- Stable insertion of one element into a list sorted by lowerKey: the new
element goes in front of the first element with a key not below its own. -/
def insertSorted {α : Type} (tl : α → String) (x : α) : List α → List α
  | [] => [x]
  | y :: ys =>
    if lexLe (lowerKey tl x) (lowerKey tl y) then x :: y :: ys
    else y :: insertSorted tl x ys

/-- The call sorted(items, key=lambda item: item[title].lower()).  Python
sorted is a stable sort; any stable sort with the same key computes the same
list, so it is modelled by stable insertion sort. -/
def sortByTitle {α : Type} (tl : α → String) : List α → List α
  | [] => []
  | x :: xs => insertSorted tl x (sortByTitle tl xs)

/-- utils.sort_items: sort once by lowercased title, then the items the
predicate rejects followed by the items it selects.  The items argument is
duck-typed in Python; the embedding takes the title projection as a
parameter. -/
def sort_items {α : Type} (tl : α → String) (items : List α)
    (select_completed : α → Bool) : List α :=
  let sorted_items := sortByTitle tl items
  sorted_items.filter (fun item => !select_completed item) ++
    sorted_items.filter (fun item => select_completed item)

/-- Scenario state: one list created in a fresh session. -/
def c8Sess1 : Sess := Sess.create_new_list Sess.init "A"

/-- Scenario run, session variant: create a list, add two todos, delete the
list. -/
def c8Sess : Option Sess :=
  (c8Sess1.create_new_todo 0 "t1").bind (fun s =>
    (s.create_new_todo 0 "t2").map (fun s2 => s2.delete_list 0))

/-- Scenario run, relational variant: create a list, add two todos, delete
the list. -/
def c8Db : Except Unit DB :=
  (DB.create_new_list DB.init "A").bind (fun db =>
    (db.create_new_todo 1 "t1").bind (fun db2 =>
      (db2.create_new_todo 1 "t2").map (fun db3 => db3.delete_list 1)))

/-- Scenario run for the todo dict shape: create a list, then one todo, in a
fresh session. -/
def c10Sess : Option Sess := (Sess.create_new_list Sess.init "A").create_new_todo 0 "M"

/-- Observable content of a session todo: its title and completion flag. -/
def STodo.obs (td : STodo) : String × Bool := (td.title, td.completed)

/-- Observable content of a session list: its title and its todos in order. -/
def SList.obs (l : SList) : String × List (String × Bool) :=
  (l.title, l.todos.map STodo.obs)

/-- Observable state of the session variant: every list in order. -/
def Sess.obs (s : Sess) : List (String × List (String × Bool)) :=
  s.lists.map SList.obs

/-- Observable content of a todos table row. -/
def TodoRow.obs (td : TodoRow) : String × Bool := (td.title, td.completed)

/-- Observable content of a list read from the relational variant. -/
def ListView.obs (v : ListView) : String × List (String × Bool) :=
  (v.title, v.todos.map TodoRow.obs)

/-- Observable state of the relational variant: all_lists erased to titles
and flags. -/
def DB.obs (db : DB) : List (String × List (String × Bool)) :=
  db.all_lists.map ListView.obs

/-- One storage-contract operation, carrying for every id argument the pair
of names the two variants use for the same entity (the relational serial id
and the session token). -/
inductive Op where
  | allLists : Op
  | findList (i j : Nat) : Op
  | createList (t : String) : Op
  | updateList (i j : Nat) (t : String) : Op
  | deleteList (i j : Nat) : Op
  | createTodo (i j : Nat) (t : String) : Op
  | deleteTodo (i j ti tj : Nat) : Op
  | updateTodo (i j ti tj : Nat) (b : Bool) : Op
  | markAll (i j : Nat) : Op
deriving Repr, DecidableEq

/-- Result of one relational operation. -/
inductive DRes where
  | unit : DRes
  | lists (vs : List ListView) : DRes
  | single (v : ListView) : DRes
deriving Repr, DecidableEq

/-- Result of one session operation. -/
inductive SRes where
  | unit : SRes
  | lists (ls : List SList) : SRes
  | single (l : SList) : SRes
deriving Repr, DecidableEq

/-- Observable content of an operation result. -/
inductive ObsRes where
  | unit : ObsRes
  | lists (o : List (String × List (String × Bool))) : ObsRes
  | single (o : String × List (String × Bool)) : ObsRes
deriving Repr, DecidableEq

/-- Erasure of a relational result to its observable content. -/
def DRes.obs : DRes → ObsRes
  | .unit => .unit
  | .lists vs => .lists (vs.map ListView.obs)
  | .single v => .single v.obs

/-- Erasure of a session result to its observable content. -/
def SRes.obs : SRes → ObsRes
  | .unit => .unit
  | .lists ls => .lists (ls.map SList.obs)
  | .single l => .single l.obs

/-- Driver dispatching one operation to DatabasePersistence; an error of any
underlying call aborts the step. -/
def dbStep (db : DB) : Op → Except Unit (DB × DRes)
  | .allLists => .ok (db, .lists db.all_lists)
  | .findList i _ =>
    match db.find_list i with
    | .ok v => .ok (db, .single v)
    | .error e => .error e
  | .createList t =>
    match db.create_new_list t with
    | .ok db2 => .ok (db2, .unit)
    | .error e => .error e
  | .updateList i _ t =>
    match db.update_list_by_id i t with
    | .ok db2 => .ok (db2, .unit)
    | .error e => .error e
  | .deleteList i _ => .ok (db.delete_list i, .unit)
  | .createTodo i _ t =>
    match db.create_new_todo i t with
    | .ok db2 => .ok (db2, .unit)
    | .error e => .error e
  | .deleteTodo i _ ti _ => .ok (db.delete_todo_from_list i ti, .unit)
  | .updateTodo i _ ti _ b => .ok (db.update_todo_status i ti b, .unit)
  | .markAll i _ => .ok (db.mark_all_todos_completed i, .unit)

/-- Driver dispatching one operation to SessionPersistence; an exception of
the underlying call, or a findList that comes back absent, aborts the step
(an absent findList has no result to compare). -/
def sessStep (s : Sess) : Op → Option (Sess × SRes)
  | .allLists => some (s, .lists s.all_lists)
  | .findList _ j =>
    match s.find_list j with
    | some l => some (s, .single l)
    | none => none
  | .createList t => some (s.create_new_list t, .unit)
  | .updateList _ j t => some (s.update_list_by_id j t, .unit)
  | .deleteList _ j => some (s.delete_list j, .unit)
  | .createTodo _ j t =>
    match s.create_new_todo j t with
    | some s2 => some (s2, .unit)
    | none => none
  | .deleteTodo _ j _ tj =>
    match s.delete_todo_from_list j tj with
    | some s2 => some (s2, .unit)
    | none => none
  | .updateTodo _ j _ tj b =>
    match s.update_todo_status j tj b with
    | some s2 => some (s2, .unit)
    | none => none
  | .markAll _ j =>
    match s.mark_all_todos_completed j with
    | some s2 => some (s2, .unit)
    | none => none

/-- Index of the first element satisfying p. -/
def posOf {α : Type} (p : α → Bool) : List α → Option Nat
  | [] => none
  | x :: xs => if p x then some 0 else (posOf p xs).map (fun n => n + 1)

/-- The relational id i and the session token j name the same list: both
occur, at the same position. -/
def corrList (db : DB) (s : Sess) (i j : Nat) : Bool :=
  match posOf (fun r => r.id == i) db.lists, posOf (fun l => l.id == j) s.lists with
  | some k, some k2 => k == k2
  | _, _ => false

/-- Neither variant has a list under the respective name. -/
def absentBoth (db : DB) (s : Sess) (i j : Nat) : Bool :=
  db.lists.all (fun r => r.id != i) && s.lists.all (fun l => l.id != j)

/-- The todo named ti (relational) and tj (session) is the same todo of the
list named i and j: both occur, at the same position of that list. -/
def corrTodo (db : DB) (s : Sess) (i j ti tj : Nat) : Bool :=
  corrList db s i j &&
    match posOf (fun td => td.id == ti) (db.find_todos_for_list i),
        (s.find_list j).bind (fun l => posOf (fun td => td.id == tj) l.todos) with
    | some m, some m2 => m == m2
    | _, _ => false

/-- A validated operation: its referenced entities exist correspondingly in
both variants (or, where both variants tolerate absence, are absent in
both), and every written list title passes the caller-side validation that
the spec makes a precondition (length at most 100 here, since neither store
rejects the empty string, and unique among current list titles); todo titles
only need the length bound. -/
def validOp (db : DB) (s : Sess) : Op → Bool
  | .allLists => true
  | .findList i j => corrList db s i j
  | .createList t =>
    titleOk t && db.lists.all (fun r => r.title != t)
  | .updateList i j t =>
    (corrList db s i j && titleOk t && db.lists.all (fun r => r.title != t)) ||
      absentBoth db s i j
  | .deleteList i j => corrList db s i j || absentBoth db s i j
  | .createTodo i j t => corrList db s i j && titleOk t
  | .deleteTodo i j ti tj => corrTodo db s i j ti tj
  | .updateTodo i j ti tj _ => corrTodo db s i j ti tj
  | .markAll i j => corrList db s i j

/-- A whole operation sequence is validated step by step against the states
it reaches. -/
def validTrace (db : DB) (s : Sess) : List Op → Bool
  | [] => true
  | op :: ops =>
    validOp db s op &&
      match dbStep db op, sessStep s op with
      | .ok (db2, _), some (s2, _) => validTrace db2 s2 ops
      | _, _ => false

/-- Run a sequence against the relational variant, collecting results. -/
def runDB (db : DB) : List Op → Except Unit (DB × List DRes)
  | [] => .ok (db, [])
  | op :: ops =>
    match dbStep db op with
    | .ok (db2, r) => (runDB db2 ops).map (fun pr => (pr.1, r :: pr.2))
    | .error e => .error e

/-- Run a sequence against the session variant, collecting results. -/
def runSess (s : Sess) : List Op → Option (Sess × List SRes)
  | [] => some (s, [])
  | op :: ops =>
    match sessStep s op with
    | some (s2, r) => (runSess s2 ops).map (fun pr => (pr.1, r :: pr.2))
    | none => none

/-- Well-formedness of a relational state: primary keys are unique, the
serial sequences are ahead of every existing id, and every todo row
references an existing list (the foreign key). -/
def DB.inv (db : DB) : Prop :=
  (db.lists.map ListRow.id).Nodup ∧ (db.todos.map TodoRow.id).Nodup
  ∧ (∀ r ∈ db.lists, r.id < db.next_list_id)
  ∧ (∀ td ∈ db.todos, td.id < db.next_todo_id)
  ∧ (∀ td ∈ db.todos, ∃ r ∈ db.lists, r.id = td.list_id)

/-- Well-formedness of a session state: tokens are unique and the counter is
ahead of every issued token. -/
def Sess.inv (s : Sess) : Prop :=
  (s.lists.map SList.id).Nodup
  ∧ (∀ l ∈ s.lists, l.id < s.nextToken)
  ∧ (∀ l ∈ s.lists, (l.todos.map STodo.id).Nodup ∧ ∀ td ∈ l.todos, td.id < s.nextToken)

/-- Foreign-key integrity of the todos table, as a boolean check. -/
def DB.fkOk (db : DB) : Bool :=
  db.todos.all (fun td => db.lists.any (fun r => r.id == td.list_id))

/-- A mutating operation of the relational variant alone. -/
inductive DOp where
  | createList (t : String) : DOp
  | updateList (i : Nat) (t : String) : DOp
  | deleteList (i : Nat) : DOp
  | createTodo (i : Nat) (t : String) : DOp
  | deleteTodo (i ti : Nat) : DOp
  | updateTodo (i ti : Nat) (b : Bool) : DOp
  | markAll (i : Nat) : DOp
deriving Repr, DecidableEq

/-- Apply one mutating operation to the relational state. -/
def DB.applyOp (db : DB) : DOp → Except Unit DB
  | .createList t => db.create_new_list t
  | .updateList i t => db.update_list_by_id i t
  | .deleteList i => .ok (db.delete_list i)
  | .createTodo i t => db.create_new_todo i t
  | .deleteTodo i ti => .ok (db.delete_todo_from_list i ti)
  | .updateTodo i ti b => .ok (db.update_todo_status i ti b)
  | .markAll i => .ok (db.mark_all_todos_completed i)

/-- Run a sequence of mutating operations on the relational state. -/
def DB.run (db : DB) : List DOp → Except Unit DB
  | [] => .ok db
  | op :: ops =>
    match db.applyOp op with
    | .ok db2 => db2.run ops
    | .error _ => .error ()

/-- A title of 101 characters, above the varchar(100) limit. -/
def longTitle : String := String.mk (List.replicate 101 'a')

/-- C2: for an id that identifies no list, the session variant returns an
absent value from find_list, but the relational variant raises (dict of
None); evaluated at the concrete failing input id 1 on the fresh stores. -/
theorem C2_find_list_absent :
    Sess.find_list Sess.init 1 = none ∧ DB.find_list DB.init 1 = Except.error () :=
  ⟨rfl, rfl⟩

/-- C3: error_for_list_title reports the duplicate error whenever some
existing list carries exactly the candidate title, even for titles of
invalid length; otherwise it reports the length error exactly when the
length is outside 1..100; otherwise it passes. -/
theorem C3_error_for_list_title_spec {α : Type} (tl : α → String) (t : String)
    (lists : List α) :
    ((∃ l ∈ lists, tl l = t) →
        error_for_list_title tl t lists = some "The title must be unique.")
  ∧ ((∀ l ∈ lists, tl l ≠ t) → ¬(1 ≤ t.length ∧ t.length ≤ 100) →
        error_for_list_title tl t lists =
          some "The title must be between 1 and 100 characters")
  ∧ ((∀ l ∈ lists, tl l ≠ t) → 1 ≤ t.length → t.length ≤ 100 →
        error_for_list_title tl t lists = none) := by
  unfold error_for_list_title
  refine ⟨fun h => ?_, fun h hlen => ?_, fun h h1 h2 => ?_⟩
  · obtain ⟨l, hl, he⟩ := h
    rw [if_pos (List.any_eq_true.mpr ⟨l, hl, by simp [he]⟩)]
  · rw [if_neg, if_pos]
    · simp only [Bool.not_eq_true', Bool.and_eq_false_iff]
      rcases Nat.lt_or_ge t.length 1 with hl | hl
      · exact Or.inl (by simpa using Nat.lt_irrefl _ ∘ Nat.lt_of_lt_of_le hl)
      · refine Or.inr ?_
        have : ¬ t.length ≤ 100 := fun hle => hlen ⟨hl, hle⟩
        simpa using this
    · simp only [List.any_eq_true, not_exists, not_and]
      intro l hl
      simp [h l hl]
  · rw [if_neg, if_neg]
    · simp [h1, h2]
    · simp only [List.any_eq_true, not_exists, not_and]
      intro l hl
      simp [h l hl]

/-- C3 witness: the three branches evaluated on a concrete store holding one
list titled A. -/
theorem C3_error_for_list_title_witness :
    error_for_list_title SList.title "A" [{ id := 0, title := "A", todos := [] }]
        = some "The title must be unique."
  ∧ error_for_list_title SList.title "" [{ id := 0, title := "A", todos := [] }]
        = some "The title must be between 1 and 100 characters"
  ∧ error_for_list_title SList.title "B" [{ id := 0, title := "A", todos := [] }]
        = none := by
  refine ⟨(C3_error_for_list_title_spec SList.title "A" _).1 ?_,
          (C3_error_for_list_title_spec SList.title "" _).2.1 ?_ ?_,
          (C3_error_for_list_title_spec SList.title "B" _).2.2 ?_ ?_ ?_⟩ <;> decide

/-- C4: a title of length 0 or above 100 is rejected by error_for_list_title
for every collection of lists and by error_for_todo; a title of length
1..100 passes error_for_todo. -/
theorem C4_title_length_validation {α : Type} (tl : α → String) (t : String) :
    ((t.length = 0 ∨ t.length > 100) →
        (∀ lists : List α, (error_for_list_title tl t lists).isSome = true)
        ∧ (error_for_todo t).isSome = true)
  ∧ (1 ≤ t.length → t.length ≤ 100 → error_for_todo t = none) := by
  constructor
  · intro h
    have hbad : (1 ≤ t.length && t.length ≤ 100) = false := by
      rcases h with h | h
      · simp [h]
      · simp [Nat.not_le_of_lt h, Bool.and_eq_false_iff]
    constructor
    · intro lists
      unfold error_for_list_title
      rcases hany : lists.any (fun lst => tl lst == t) with _ | _
      · simp [hany, hbad]
      · simp [hany]
    · unfold error_for_todo
      simp [hbad]
  · intro h1 h2
    unfold error_for_todo
    simp [h1, h2]

/-- C4 witness: the empty title is rejected on a concrete store and by
error_for_todo; a short title passes error_for_todo. -/
theorem C4_title_length_validation_witness :
    (error_for_list_title SList.title "" [{ id := 0, title := "A", todos := [] }]).isSome = true
  ∧ (error_for_todo "").isSome = true
  ∧ error_for_todo "ok" = none := by
  obtain ⟨h1, h2⟩ := (C4_title_length_validation SList.title "").1 (Or.inl rfl)
  exact ⟨h1 _, h2, (C4_title_length_validation SList.title "ok").2 (by decide) (by decide)⟩

/-- C7: is_list_completed holds exactly when the todo collection is
non-empty and every todo in it is completed. -/
theorem C7_is_list_completed_iff (lst : SList) :
    is_list_completed lst = true ↔
      lst.todos ≠ [] ∧ ∀ td ∈ lst.todos, td.completed = true := by
  unfold is_list_completed todos_remaining
  simp only [Bool.and_eq_true, decide_eq_true_eq, beq_iff_eq, List.length_eq_zero,
    List.filter_eq_nil_iff, Bool.not_eq_true', List.length_pos]
  constructor
  · exact fun ⟨h1, h2⟩ => ⟨h1, fun td htd => by simpa using h2 td htd⟩
  · exact fun ⟨h1, h2⟩ => ⟨h1, fun td htd => by simpa using h2 td htd⟩

/-- C7 witness: a concrete list with one completed todo. -/
theorem C7_is_list_completed_witness :
    (SList.mk 0 "g" [STodo.mk 1 "m" true]).todos ≠ [] ∧
    ∀ td ∈ (SList.mk 0 "g" [STodo.mk 1 "m" true]).todos, td.completed = true :=
  (C7_is_list_completed_iff _).mp (by decide)

/-- C9: updating the title of a non-existent list id leaves the whole state
of either variant unchanged (the relational UPDATE matches zero rows, the
session variant finds nothing). -/
theorem C9_update_list_absent_noop (db : DB) (s : Sess) (i j : Nat) (t : String)
    (hdb : ∀ row ∈ db.lists, row.id ≠ i) (hs : ∀ lst ∈ s.lists, lst.id ≠ j) :
    DB.update_list_by_id db i t = .ok db ∧ Sess.update_list_by_id s j t = s := by
  constructor
  · unfold DB.update_list_by_id
    rw [if_pos (List.all_eq_true.mpr (fun row hr => by simpa using hdb row hr))]
  · unfold Sess.update_list_by_id Sess.find_list
    rw [List.find?_eq_none.mpr (fun lst hl => by simpa using hs lst hl)]

/-- C9 witness: concrete no-op update on stores holding one list. -/
theorem C9_update_list_absent_noop_witness :
    DB.update_list_by_id
        { lists := [{ id := 1, title := "A" }], todos := [],
          next_list_id := 2, next_todo_id := 1 } 7 "x"
      = .ok { lists := [{ id := 1, title := "A" }], todos := [],
              next_list_id := 2, next_todo_id := 1 }
  ∧ Sess.update_list_by_id c8Sess1 7 "x" = c8Sess1 :=
  C9_update_list_absent_noop _ _ 7 7 "x" (by decide) (by decide)

/-- C8: after create list, two todos, delete list, the session variant shows
an absent list and no remaining todos; in the relational variant the cascade
removes both todo rows from every read (all_lists is empty and the per-list
todo fetch is empty), but find_list on the deleted id raises instead of
returning an absent value. -/
theorem C8_delete_list_cascade_run :
    c8Sess.map (fun s => (s.find_list 0, s.all_lists)) = some (none, [])
  ∧ c8Db.toOption.map
      (fun db => (db.find_list 1, db.all_lists, db.find_todos_for_list 1))
    = some (Except.error (), [], []) := by
  constructor <;> rfl

theorem posOf_some {α : Type} {p : α → Bool} {l : List α} {k : Nat}
    (h : posOf p l = some k) : ∃ x, l[k]? = some x ∧ p x = true := by
  induction l generalizing k with
  | nil => exact absurd h (by simp [posOf])
  | cons y ys ih =>
    cases hp : p y with
    | true =>
      have hk : k = 0 := by
        rw [posOf, if_pos hp] at h
        exact (Option.some_inj.mp h).symm
      subst hk
      exact ⟨y, by simp, hp⟩
    | false =>
      rw [posOf, if_neg (by simp [hp])] at h
      rcases Option.map_eq_some'.mp h with ⟨n, hn, hk⟩
      subst hk
      rcases ih hn with ⟨x, hx, hpx⟩
      exact ⟨x, by simpa using hx, hpx⟩

theorem posOf_none_iff {α : Type} (p : α → Bool) (l : List α) :
    posOf p l = none ↔ ∀ x ∈ l, p x = false := by
  induction l with
  | nil => simp [posOf]
  | cons y ys ih =>
    cases hp : p y with
    | true => simp [posOf, hp]
    | false => simp [posOf, hp, ih]

theorem find?_of_posOf {α : Type} {p : α → Bool} {l : List α} {k : Nat} {x : α}
    (h : posOf p l = some k) (hx : l[k]? = some x) : l.find? p = some x := by
  induction l generalizing k with
  | nil => exact absurd h (by simp [posOf])
  | cons y ys ih =>
    cases hp : p y with
    | true =>
      have hk : k = 0 := by
        rw [posOf, if_pos hp] at h
        exact (Option.some_inj.mp h).symm
      subst hk
      have : y = x := by simpa using hx
      subst this
      simp [List.find?, hp]
    | false =>
      rw [posOf, if_neg (by simp [hp])] at h
      rcases Option.map_eq_some'.mp h with ⟨n, hn, hk⟩
      subst hk
      simpa [List.find?, hp] using ih hn (by simpa using hx)

theorem modifyFirst_of_posOf {α : Type} {p : α → Bool} {f : α → α} {l : List α}
    {k : Nat} {x : α} (h : posOf p l = some k) (hx : l[k]? = some x) :
    modifyFirst p f l = l.set k (f x) := by
  induction l generalizing k with
  | nil => exact absurd h (by simp [posOf])
  | cons y ys ih =>
    cases hp : p y with
    | true =>
      have hk : k = 0 := by
        rw [posOf, if_pos hp] at h
        exact (Option.some_inj.mp h).symm
      subst hk
      have : y = x := by simpa using hx
      subst this
      simp [modifyFirst, hp, List.set]
    | false =>
      rw [posOf, if_neg (by simp [hp])] at h
      rcases Option.map_eq_some'.mp h with ⟨n, hn, hk⟩
      subst hk
      simp [modifyFirst, hp, List.set, ih hn (by simpa using hx)]

theorem modifyFirst_of_none {α : Type} {p : α → Bool} {f : α → α} {l : List α}
    (h : posOf p l = none) : modifyFirst p f l = l := by
  induction l with
  | nil => rfl
  | cons y ys ih =>
    cases hp : p y with
    | true => rw [posOf, if_pos hp] at h; exact absurd h (by simp)
    | false =>
      rw [posOf, if_neg (by simp [hp])] at h
      simp only [Option.map_eq_none'] at h
      simp [modifyFirst, hp, ih h]

theorem key_unique {α β : Type} (key : α → β) {l : List α}
    (hnd : (l.map key).Nodup) {k n : Nat} {x y : α}
    (hx : l[k]? = some x) (hy : l[n]? = some y) (hkey : key x = key y) : k = n := by
  induction l generalizing k n with
  | nil => simp at hx
  | cons z zs ih =>
    obtain ⟨hz, hzs⟩ : (∀ a ∈ zs, ¬ key a = key z) ∧ (zs.map key).Nodup := by
      simpa using hnd
    cases k with
    | zero =>
      cases n with
      | zero => rfl
      | succ n2 =>
        have hzx : z = x := by simpa using hx
        have hy2 : zs[n2]? = some y := by simpa using hy
        have hymem : y ∈ zs := List.getElem?_mem hy2
        refine absurd ?_ (hz y hymem)
        rw [hzx]
        exact hkey.symm
    | succ k2 =>
      cases n with
      | zero =>
        have hzy : z = y := by simpa using hy
        have hx2 : zs[k2]? = some x := by simpa using hx
        have hxmem : x ∈ zs := List.getElem?_mem hx2
        refine absurd ?_ (hz x hxmem)
        rw [hzy]
        exact hkey
      | succ n2 =>
        have hx2 : zs[k2]? = some x := by simpa using hx
        have hy2 : zs[n2]? = some y := by simpa using hy
        rw [ih hzs hx2 hy2]

theorem map_eq_set_map {α β : Type} {l : List α} {g h : α → β} {k : Nat} {x : α}
    (hx : l[k]? = some x)
    (hoth : ∀ n y, n ≠ k → l[n]? = some y → g y = h y) :
    l.map g = (l.map h).set k (g x) := by
  induction l generalizing k with
  | nil => simp at hx
  | cons z zs ih =>
    cases k with
    | zero =>
      have hz : z = x := by simpa using hx
      subst hz
      have htail : zs.map g = zs.map h := by
        apply List.map_congr_left
        intro a ha
        obtain ⟨n, hn, hl⟩ := List.getElem_of_mem ha
        exact hoth (n + 1) a (Nat.succ_ne_zero n)
          (by simpa using List.getElem?_eq_getElem hn ▸ congrArg some hl)
      simp [List.set, htail]
    | succ k2 =>
      have hx2 : zs[k2]? = some x := by simpa using hx
      have hz : g z = h z := hoth 0 z (by omega) (by simp)
      have := ih hx2 (fun n y hn hy =>
        hoth (n + 1) y (by omega) (by simpa using hy))
      simp [List.set, hz, this]

theorem filter_eq_eraseIdx {α : Type} {p : α → Bool} {l : List α} {k : Nat} {x : α}
    (hx : l[k]? = some x) (hpx : p x = true)
    (hoth : ∀ n y, n ≠ k → l[n]? = some y → p y = false) :
    l.filter (fun a => !(p a)) = l.eraseIdx k := by
  induction l generalizing k with
  | nil => simp at hx
  | cons z zs ih =>
    cases k with
    | zero =>
      have hz : z = x := by simpa using hx
      subst hz
      have htail : zs.filter (fun a => !(p a)) = zs := by
        apply List.filter_eq_self.mpr
        intro a ha
        obtain ⟨n, hn, hl⟩ := List.getElem_of_mem ha
        have := hoth (n + 1) a (Nat.succ_ne_zero n)
          (by simpa using List.getElem?_eq_getElem hn ▸ congrArg some hl)
        simp [this]
      simp [List.filter_cons, hpx, List.eraseIdx, htail]
    | succ k2 =>
      have hx2 : zs[k2]? = some x := by simpa using hx
      have hz : p z = false := hoth 0 z (by omega) (by simp)
      have := ih hx2 (fun n y hn hy =>
        hoth (n + 1) y (by omega) (by simpa using hy))
      simp [List.filter_cons, hz, List.eraseIdx, this]

theorem eraseIdx_map_comm {α β : Type} (l : List α) (f : α → β) (k : Nat) :
    (l.eraseIdx k).map f = (l.map f).eraseIdx k := by
  induction l generalizing k with
  | nil => simp
  | cons x xs ih => cases k <;> simp [List.eraseIdx, ih]

theorem set_of_getElem?_eq {α : Type} {l : List α} {k : Nat} {a : α}
    (h : l[k]? = some a) : l.set k a = l := by
  induction l generalizing k with
  | nil => simp at h
  | cons x xs ih =>
    cases k with
    | zero =>
      have : x = a := by simpa using h
      subst this
      simp [List.set]
    | succ k2 =>
      have : xs[k2]? = some a := by simpa using h
      simp [List.set, ih this]

theorem not_mem_eraseIdx_of_nodup {α : Type} {l : List α} {k : Nat} {x : α}
    (hnd : l.Nodup) (hx : l[k]? = some x) : x ∉ l.eraseIdx k := by
  induction l generalizing k with
  | nil => simp at hx
  | cons z zs ih =>
    rcases List.nodup_cons.mp hnd with ⟨hz, hzs⟩
    cases k with
    | zero =>
      have : z = x := by simpa using hx
      subst this
      simpa [List.eraseIdx] using hz
    | succ k2 =>
      have hx2 : zs[k2]? = some x := by simpa using hx
      have hmem : x ∈ zs := List.getElem?_mem hx2
      simp only [List.eraseIdx, List.mem_cons]
      rintro (rfl | hin)
      · exact hz hmem
      · exact ih hzs hx2 hin

theorem dbObs_def (db : DB) :
    db.obs = db.lists.map (fun r =>
      (r.title, (db.find_todos_for_list r.id).map TodoRow.obs)) := by
  simp [DB.obs, DB.all_lists, List.map_map]
  exact fun a _ => rfl

theorem lexLe_total (a b : List Char) : lexLe a b = true ∨ lexLe b a = true := by
  induction a generalizing b with
  | nil => exact Or.inl rfl
  | cons x xs ih =>
    cases b with
    | nil => exact Or.inr rfl
    | cons y ys =>
      rcases Nat.lt_trichotomy x.toNat y.toNat with h | h | h
      · exact Or.inl (by simp [lexLe, h])
      · have h2 : ¬ x.toNat < y.toNat := by omega
        have h3 : ¬ y.toNat < x.toNat := by omega
        rcases ih ys with hl | hl
        · exact Or.inl (by simp [lexLe, h2, h3, hl])
        · exact Or.inr (by simp [lexLe, h2, h3, hl])
      · exact Or.inr (by simp [lexLe, h])

theorem lexLe_trans {a b c : List Char} (h1 : lexLe a b = true)
    (h2 : lexLe b c = true) : lexLe a c = true := by
  induction a generalizing b c with
  | nil => rfl
  | cons x xs ih =>
    cases b with
    | nil => simp [lexLe] at h1
    | cons y ys =>
      cases c with
      | nil => simp [lexLe] at h2
      | cons z zs =>
        by_cases hxy : x.toNat < y.toNat
        · by_cases hyz : y.toNat < z.toNat
          · simp [lexLe, Nat.lt_trans hxy hyz]
          · by_cases hzy : z.toNat < y.toNat
            · simp [lexLe, hyz, hzy] at h2
            · have hx : x.toNat < z.toNat := by omega
              simp [lexLe, hx]
        · by_cases hyx : y.toNat < x.toNat
          · simp [lexLe, hxy, hyx] at h1
          · by_cases hyz : y.toNat < z.toNat
            · have hx : x.toNat < z.toNat := by omega
              simp [lexLe, hx]
            · by_cases hzy : z.toNat < y.toNat
              · simp [lexLe, hyz, hzy] at h2
              · have h1a : lexLe xs ys = true := by
                  simpa [lexLe, hxy, hyx] using h1
                have h2a : lexLe ys zs = true := by
                  simpa [lexLe, hyz, hzy] using h2
                have hxz : ¬ x.toNat < z.toNat := by omega
                have hzx : ¬ z.toNat < x.toNat := by omega
                simp [lexLe, hxz, hzx, ih h1a h2a]

theorem lexLe_of_not_lexLe {a b : List Char} (h : ¬ lexLe a b = true) :
    lexLe b a = true :=
  (lexLe_total a b).resolve_left h

theorem mem_insertSorted {α : Type} (tl : α → String) (x a : α) (l : List α) :
    a ∈ insertSorted tl x l ↔ a = x ∨ a ∈ l := by
  induction l with
  | nil => simp [insertSorted]
  | cons y ys ih =>
    cases h : lexLe (lowerKey tl x) (lowerKey tl y) with
    | true => simp [insertSorted, h]
    | false =>
      simp [insertSorted, h, ih]
      tauto

theorem insertSorted_perm {α : Type} (tl : α → String) (x : α) (l : List α) :
    List.Perm (insertSorted tl x l) (x :: l) := by
  induction l with
  | nil => simp [insertSorted]
  | cons y ys ih =>
    cases h : lexLe (lowerKey tl x) (lowerKey tl y) with
    | true => simp [insertSorted, h]
    | false =>
      simp only [insertSorted, h, Bool.false_eq_true, if_false]
      exact (ih.cons y).trans (List.Perm.swap x y ys)

theorem sortByTitle_perm {α : Type} (tl : α → String) (l : List α) :
    List.Perm (sortByTitle tl l) l := by
  induction l with
  | nil => simp [sortByTitle]
  | cons x xs ih => exact (insertSorted_perm tl x (sortByTitle tl xs)).trans (ih.cons x)

theorem pairwise_insertSorted {α : Type} (tl : α → String) (x : α) (l : List α)
    (h : l.Pairwise (fun a b => lexLe (lowerKey tl a) (lowerKey tl b) = true)) :
    (insertSorted tl x l).Pairwise
      (fun a b => lexLe (lowerKey tl a) (lowerKey tl b) = true) := by
  induction l with
  | nil => simp [insertSorted]
  | cons y ys ih =>
    rcases List.pairwise_cons.mp h with ⟨hy, hys⟩
    cases hle : lexLe (lowerKey tl x) (lowerKey tl y) with
    | true =>
      simp only [insertSorted, hle, if_true]
      refine List.pairwise_cons.mpr ⟨?_, h⟩
      intro z hz
      rcases List.mem_cons.mp hz with rfl | hz
      · exact hle
      · exact lexLe_trans hle (hy z hz)
    | false =>
      simp only [insertSorted, hle, Bool.false_eq_true, if_false]
      refine List.pairwise_cons.mpr ⟨?_, ih hys⟩
      intro z hz
      rcases (mem_insertSorted tl x z ys).mp hz with rfl | hz
      · exact lexLe_of_not_lexLe (by simp [hle])
      · exact hy z hz

theorem sortByTitle_pairwise {α : Type} (tl : α → String) (l : List α) :
    (sortByTitle tl l).Pairwise
      (fun a b => lexLe (lowerKey tl a) (lowerKey tl b) = true) := by
  induction l with
  | nil => simp [sortByTitle]
  | cons x xs ih => exact pairwise_insertSorted tl x _ ih

theorem insertSorted_of_forall_le {α : Type} (tl : α → String) (x : α) (l : List α)
    (h : ∀ y ∈ l, lexLe (lowerKey tl x) (lowerKey tl y) = true) :
    insertSorted tl x l = x :: l := by
  cases l with
  | nil => rfl
  | cons y ys => simp [insertSorted, h y (List.mem_cons_self y ys)]

theorem sortByTitle_eq_self_of_pairwise {α : Type} (tl : α → String) (l : List α)
    (h : l.Pairwise (fun a b => lexLe (lowerKey tl a) (lowerKey tl b) = true)) :
    sortByTitle tl l = l := by
  induction l with
  | nil => rfl
  | cons x xs ih =>
    rcases List.pairwise_cons.mp h with ⟨hx, hxs⟩
    simp only [sortByTitle, ih hxs]
    exact insertSorted_of_forall_le tl x xs hx

theorem filter_insertSorted {α : Type} (tl : α → String) (x : α) (l : List α)
    (q : α → Bool)
    (h : l.Pairwise (fun a b => lexLe (lowerKey tl a) (lowerKey tl b) = true)) :
    (insertSorted tl x l).filter q =
      if q x then insertSorted tl x (l.filter q) else l.filter q := by
  induction l with
  | nil =>
    cases hq : q x <;> simp [insertSorted, List.filter, hq]
  | cons y ys ih =>
    rcases List.pairwise_cons.mp h with ⟨hy, hys⟩
    cases hle : lexLe (lowerKey tl x) (lowerKey tl y) with
    | true =>
      cases hq : q x with
      | false => simp [insertSorted, hle, List.filter, hq]
      | true =>
        have hfront : insertSorted tl x (List.filter q (y :: ys)) =
            x :: List.filter q (y :: ys) := by
          apply insertSorted_of_forall_le
          intro z hz
          have hz2 := List.mem_of_mem_filter hz
          rcases List.mem_cons.mp hz2 with rfl | hz2
          · exact hle
          · exact lexLe_trans hle (hy z hz2)
        simp [insertSorted, hle, hq, hfront]
    | false =>
      cases hq : q x with
      | false =>
        cases hqy : q y <;>
          simp [insertSorted, hle, List.filter, hqy, hq, ih hys]
      | true =>
        cases hqy : q y with
        | false => simp [insertSorted, hle, List.filter, hqy, hq, ih hys]
        | true => simp [insertSorted, hle, List.filter, hqy, hq, ih hys]

theorem filter_sortByTitle {α : Type} (tl : α → String) (l : List α) (q : α → Bool) :
    (sortByTitle tl l).filter q = sortByTitle tl (l.filter q) := by
  induction l with
  | nil => rfl
  | cons x xs ih =>
    have hp := sortByTitle_pairwise tl xs
    rw [sortByTitle, filter_insertSorted tl x _ q hp, ih]
    cases hq : q x with
    | false => simp [List.filter, hq]
    | true => simp [List.filter, hq, sortByTitle]

theorem sortByTitle_filter_key {α : Type} (tl : α → String) (l : List α)
    (s : List Char) :
    (sortByTitle tl l).filter (fun x => lowerKey tl x == s) =
      l.filter (fun x => lowerKey tl x == s) := by
  rw [filter_sortByTitle]
  apply sortByTitle_eq_self_of_pairwise
  apply List.pairwise_of_forall_mem_list
  intro a ha b hb
  have ha2 : lowerKey tl a = s := by simpa using List.of_mem_filter ha
  have hb2 : lowerKey tl b = s := by simpa using List.of_mem_filter hb
  rw [ha2, hb2]
  cases lexLe_total s s with
  | inl h => exact h
  | inr h => exact h

/-- C5: sort_items returns the items the predicate rejects followed by the
items it selects; each group is the stable sort of the corresponding filter
of the input by lowercased title; each group is ordered by lowercased title,
contains exactly the filtered input items, and preserves the input order
inside every class of equal keys. -/
theorem C5_sort_items_spec {α : Type} (tl : α → String) (items : List α)
    (p : α → Bool) :
    sort_items tl items p =
        sortByTitle tl (items.filter (fun i => !p i)) ++
          sortByTitle tl (items.filter (fun i => p i))
  ∧ (sortByTitle tl (items.filter (fun i => !p i))).Pairwise
      (fun a b => lexLe (lowerKey tl a) (lowerKey tl b) = true)
  ∧ (sortByTitle tl (items.filter (fun i => p i))).Pairwise
      (fun a b => lexLe (lowerKey tl a) (lowerKey tl b) = true)
  ∧ (∀ a ∈ sortByTitle tl (items.filter (fun i => !p i)), p a = false)
  ∧ (∀ a ∈ sortByTitle tl (items.filter (fun i => p i)), p a = true)
  ∧ List.Perm (sortByTitle tl (items.filter (fun i => !p i)))
      (items.filter (fun i => !p i))
  ∧ List.Perm (sortByTitle tl (items.filter (fun i => p i)))
      (items.filter (fun i => p i))
  ∧ (∀ (q : α → Bool) (s : List Char),
      (sortByTitle tl (items.filter q)).filter (fun x => lowerKey tl x == s) =
        (items.filter q).filter (fun x => lowerKey tl x == s)) := by
  refine ⟨?_, sortByTitle_pairwise tl _, sortByTitle_pairwise tl _, ?_, ?_,
    sortByTitle_perm tl _, sortByTitle_perm tl _, fun q s => ?_⟩
  · show (sortByTitle tl items).filter _ ++ (sortByTitle tl items).filter _ = _
    rw [filter_sortByTitle, filter_sortByTitle]
  · intro a ha
    have := (sortByTitle_perm tl _).mem_iff.mp ha
    simpa using List.of_mem_filter this
  · intro a ha
    have := (sortByTitle_perm tl _).mem_iff.mp ha
    simpa using List.of_mem_filter this
  · exact sortByTitle_filter_key tl _ s

/-- C5 witness: the specification evaluated on three concrete todos; the two
incomplete ones come first, ordered case-insensitively with the tie kept in
input order, followed by the completed one. -/
theorem C5_sort_items_spec_witness :
    sort_items STodo.title
        [STodo.mk 1 "b" true, STodo.mk 2 "A" false, STodo.mk 3 "a" false]
        is_todo_completed =
      sortByTitle STodo.title
          ([STodo.mk 1 "b" true, STodo.mk 2 "A" false,
            STodo.mk 3 "a" false].filter (fun i => !is_todo_completed i)) ++
        sortByTitle STodo.title
          ([STodo.mk 1 "b" true, STodo.mk 2 "A" false,
            STodo.mk 3 "a" false].filter (fun i => is_todo_completed i))
  ∧ sort_items STodo.title
        [STodo.mk 1 "b" true, STodo.mk 2 "A" false, STodo.mk 3 "a" false]
        is_todo_completed =
      [STodo.mk 2 "A" false, STodo.mk 3 "a" false, STodo.mk 1 "b" true] :=
  ⟨(C5_sort_items_spec STodo.title _ is_todo_completed).1, by decide⟩

/-- C6: sort_items is idempotent for every item sequence and predicate. -/
theorem C6_sort_items_idempotent {α : Type} (tl : α → String) (items : List α)
    (p : α → Bool) :
    sort_items tl (sort_items tl items p) p = sort_items tl items p := by
  have hA : ∀ l : List α, (l.filter (fun i => !p i)).filter (fun i => !p i) =
      l.filter (fun i => !p i) := by
    intro l
    rw [List.filter_filter]
    exact List.filter_congr (fun a _ => by cases p a <;> rfl)
  have hBA : ∀ l : List α, (l.filter (fun i => p i)).filter (fun i => !p i) = [] := by
    intro l
    rw [List.filter_filter]
    simp [List.filter_eq_nil_iff]
  have hAB : ∀ l : List α, (l.filter (fun i => !p i)).filter (fun i => p i) = [] := by
    intro l
    rw [List.filter_filter]
    simp [List.filter_eq_nil_iff]
  have hB : ∀ l : List α, (l.filter (fun i => p i)).filter (fun i => p i) =
      l.filter (fun i => p i) := by
    intro l
    rw [List.filter_filter]
    exact List.filter_congr (fun a _ => by cases p a <;> rfl)
  show (sortByTitle tl (sort_items tl items p)).filter _ ++
      (sortByTitle tl (sort_items tl items p)).filter _ = _
  rw [filter_sortByTitle, filter_sortByTitle]
  show sortByTitle tl (((sortByTitle tl items).filter _ ++
      (sortByTitle tl items).filter _).filter _) ++
    sortByTitle tl (((sortByTitle tl items).filter _ ++
      (sortByTitle tl items).filter _).filter _) = _
  rw [List.filter_append, List.filter_append, hA, hBA, hAB, hB,
    List.append_nil, List.nil_append]
  have hsA : sortByTitle tl ((sortByTitle tl items).filter (fun i => !p i)) =
      (sortByTitle tl items).filter (fun i => !p i) :=
    sortByTitle_eq_self_of_pairwise tl _
      ((sortByTitle_pairwise tl items).sublist (List.filter_sublist _))
  have hsB : sortByTitle tl ((sortByTitle tl items).filter (fun i => p i)) =
      (sortByTitle tl items).filter (fun i => p i) :=
    sortByTitle_eq_self_of_pairwise tl _
      ((sortByTitle_pairwise tl items).sublist (List.filter_sublist _))
  rw [hsA, hsB]
  rfl

/-- C10 counterexample: in the session variant, after creating a list (token
0) and one todo in it, the stored todo dict has no list_id key at all: its
keys are id, title, completed, so the lookup of list_id yields none rather
than the owner id. -/
theorem C10_counterexample_session_no_list_id :
    c10Sess.map (fun s => s.lists.map (fun l => l.todos.map
        (fun td => td.toDict.lookup "list_id")))
      = some [[(none : Option DVal)]] := by
  rfl

theorem obs_point {db : DB} {s : Sess} (hobs : db.obs = s.obs) (k : Nat)
    {x : ListRow} {l : SList}
    (hx : db.lists[k]? = some x) (hl : s.lists[k]? = some l) :
    (x.title, (db.find_todos_for_list x.id).map TodoRow.obs) =
      (l.title, l.todos.map STodo.obs) := by
  have h1 := congrArg
    (fun t : List (String × List (String × Bool)) => t[k]?) hobs
  simp only [dbObs_def, Sess.obs, List.getElem?_map, hx, hl, Option.map_some'] at h1
  simpa [SList.obs] using h1

theorem corrList_elim {db : DB} {s : Sess} {i j : Nat}
    (h : corrList db s i j = true) :
    ∃ k x l, posOf (fun r => r.id == i) db.lists = some k
      ∧ posOf (fun l2 => l2.id == j) s.lists = some k
      ∧ db.lists[k]? = some x ∧ x.id = i
      ∧ s.lists[k]? = some l ∧ l.id = j := by
  unfold corrList at h
  rcases hdm : posOf (fun r => r.id == i) db.lists with _ | k
  · rw [hdm] at h
    exact absurd h (by simp)
  rcases hsm : posOf (fun l2 => l2.id == j) s.lists with _ | k2
  · rw [hdm, hsm] at h
    exact absurd h (by simp)
  rw [hdm, hsm] at h
  have hk : k = k2 := by simpa using h
  subst hk
  rcases posOf_some hdm with ⟨x, hx, hpx⟩
  rcases posOf_some hsm with ⟨l, hl, hpl⟩
  exact ⟨k, x, l, hdm, hsm, hx, by simpa using hpx, hl, by simpa using hpl⟩

theorem corrList_intro {db : DB} {s : Sess} {i j k : Nat}
    (hdm : posOf (fun r => r.id == i) db.lists = some k)
    (hsm : posOf (fun l2 => l2.id == j) s.lists = some k) :
    corrList db s i j = true := by
  unfold corrList
  rw [hdm, hsm]
  simp

theorem key_other_false {α β : Type} [DecidableEq β] (key : α → β) {l : List α}
    (hnd : (l.map key).Nodup) {k : Nat} {x : α} (hx : l[k]? = some x) :
    ∀ n y, n ≠ k → l[n]? = some y → (key y == key x) = false := by
  intro n y hn hy
  exact beq_eq_false_iff_ne.mpr (fun he => hn (key_unique key hnd hy hx he))

theorem simAllLists (db : DB) (s : Sess) (hdb : db.inv) (hs : s.inv)
    (hobs : db.obs = s.obs) :
    ∃ db2 rd s2 rs, dbStep db .allLists = .ok (db2, rd)
      ∧ sessStep s .allLists = some (s2, rs)
      ∧ rd.obs = rs.obs ∧ db2.inv ∧ s2.inv ∧ db2.obs = s2.obs := by
  refine ⟨db, .lists db.all_lists, s, .lists s.all_lists, rfl, rfl, ?_, hdb, hs, hobs⟩
  exact congrArg ObsRes.lists hobs

theorem simFindList (db : DB) (s : Sess) (i j : Nat) (hdb : db.inv) (hs : s.inv)
    (hobs : db.obs = s.obs) (hv : validOp db s (.findList i j) = true) :
    ∃ db2 rd s2 rs, dbStep db (.findList i j) = .ok (db2, rd)
      ∧ sessStep s (.findList i j) = some (s2, rs)
      ∧ rd.obs = rs.obs ∧ db2.inv ∧ s2.inv ∧ db2.obs = s2.obs := by
  have hc : corrList db s i j = true := by simpa [validOp] using hv
  rcases corrList_elim hc with ⟨k, x, l, hdm, hsm, hx, hxi, hl, hlj⟩
  subst hxi
  subst hlj
  have hfd : db.lists.find? (fun r => r.id == x.id) = some x := find?_of_posOf hdm hx
  have hfs : s.lists.find? (fun l2 => l2.id == l.id) = some l := find?_of_posOf hsm hl
  have hpt := obs_point hobs k hx hl
  refine ⟨db, DRes.single (ListView.mk x.id x.title (db.find_todos_for_list x.id)),
    s, SRes.single l, ?_, ?_, ?_, hdb, hs, hobs⟩
  · simp [dbStep, DB.find_list, hfd]
  · simp [sessStep, Sess.find_list, hfs]
  · exact congrArg ObsRes.single hpt

theorem simCreateList (db : DB) (s : Sess) (t : String) (hdb : db.inv) (hs : s.inv)
    (hobs : db.obs = s.obs) (hv : validOp db s (.createList t) = true) :
    ∃ db2 rd s2 rs, dbStep db (.createList t) = .ok (db2, rd)
      ∧ sessStep s (.createList t) = some (s2, rs)
      ∧ rd.obs = rs.obs ∧ db2.inv ∧ s2.inv ∧ db2.obs = s2.obs := by
  obtain ⟨hnd, hndT, hbl, hbt, hfk⟩ := hdb
  obtain ⟨snd, sbl, stl⟩ := hs
  have hcond : (titleOk t && db.lists.all (fun r => r.title != t)) = true := by
    simpa [validOp] using hv
  have hview : db.find_todos_for_list db.next_list_id = [] := by
    rw [DB.find_todos_for_list]
    refine List.filter_eq_nil_iff.mpr ?_
    intro td htd
    rcases hfk td htd with ⟨r, hr, hrid⟩
    have h1 : r.id < db.next_list_id := hbl r hr
    have h2 : td.list_id < db.next_list_id := hrid ▸ h1
    simp
    omega
  have hnotin : db.next_list_id ∉ db.lists.map ListRow.id := by
    intro hmem
    rcases List.mem_map.mp hmem with ⟨r, hr, hre⟩
    have := hbl r hr
    omega
  have snotin : s.nextToken ∉ s.lists.map SList.id := by
    intro hmem
    rcases List.mem_map.mp hmem with ⟨l, hl, hle⟩
    have := sbl l hl
    omega
  refine ⟨{ db with
      lists := db.lists ++ [{ id := db.next_list_id, title := t }],
      next_list_id := db.next_list_id + 1 }, DRes.unit,
    s.create_new_list t, SRes.unit, ?_, rfl, rfl, ?_, ?_, ?_⟩
  · simp [dbStep, DB.create_new_list, hcond]
  · refine ⟨?_, hndT, ?_, hbt, ?_⟩
    · rw [List.map_append]
      exact List.Nodup.append hnd (by simp)
        (by simpa [List.disjoint_singleton] using hnotin)
    · intro r hr
      rcases List.mem_append.mp hr with h | h
      · have := hbl r h
        simp only []
        omega
      · have hre : r = { id := db.next_list_id, title := t } := by simpa using h
        subst hre
        simp
    · intro td htd
      rcases hfk td htd with ⟨r, hr, hrid⟩
      exact ⟨r, List.mem_append_left _ hr, hrid⟩
  · refine ⟨?_, ?_, ?_⟩
    · rw [Sess.create_new_list, List.map_append]
      exact List.Nodup.append snd (by simp)
        (by simpa [List.disjoint_singleton] using snotin)
    · intro l hl
      have hl2 : l ∈ s.lists ∨ l = { id := s.nextToken, title := t, todos := [] } := by
        simpa [Sess.create_new_list] using hl
      rcases hl2 with h | h
      · have := sbl l h
        simp only [Sess.create_new_list]
        omega
      · subst h
        simp [Sess.create_new_list]
    · intro l hl
      have hl2 : l ∈ s.lists ∨ l = { id := s.nextToken, title := t, todos := [] } := by
        simpa [Sess.create_new_list] using hl
      rcases hl2 with h | h
      · rcases stl l h with ⟨h1, h2⟩
        exact ⟨h1, fun td htd => by
          have := h2 td htd
          simp only [Sess.create_new_list]
          omega⟩
      · subst h
        simp
  · rw [dbObs_def]
    have hL : ({ db with
        lists := db.lists ++ [{ id := db.next_list_id, title := t }],
        next_list_id := db.next_list_id + 1 } : DB).lists =
        db.lists ++ [{ id := db.next_list_id, title := t }] := rfl
    rw [hL, List.map_append]
    have hmain : db.lists.map (fun r =>
        (r.title, (({ db with
          lists := db.lists ++ [{ id := db.next_list_id, title := t }],
          next_list_id := db.next_list_id + 1 } : DB).find_todos_for_list r.id).map
            TodoRow.obs)) = db.obs := (dbObs_def db).symm
    rw [hmain]
    have hR : (s.create_new_list t).obs = s.obs ++ [(t, [])] := by
      simp [Sess.create_new_list, Sess.obs, SList.obs]
    rw [hR, hobs]
    have hnew : (({ db with
        lists := db.lists ++ [{ id := db.next_list_id, title := t }],
        next_list_id := db.next_list_id + 1 } : DB).find_todos_for_list
          db.next_list_id) = [] := hview
    simp [hnew]

theorem sessInv_set {s : Sess} (hs : s.inv) {k : Nat} {l : SList}
    (hl : s.lists[k]? = some l) (f : SList → SList) (hid : (f l).id = l.id)
    (n : Nat) (hn : s.nextToken ≤ n)
    (hnodup : ((f l).todos.map STodo.id).Nodup)
    (hbound : ∀ td ∈ (f l).todos, td.id < n) :
    Sess.inv { lists := s.lists.set k (f l), nextToken := n, modified := true } := by
  obtain ⟨snd, sbl, stl⟩ := hs
  refine ⟨?_, ?_, ?_⟩
  · have h1 : (s.lists.set k (f l)).map SList.id = (s.lists.map SList.id).set k l.id := by
      rw [List.map_set, hid]
    have h2 : (s.lists.map SList.id)[k]? = some l.id := by
      simp [List.getElem?_map, hl]
    rw [h1, set_of_getElem?_eq h2]
    exact snd
  · intro l2 hl2
    show l2.id < n
    rcases List.mem_or_eq_of_mem_set hl2 with h | h
    · have := sbl l2 h
      omega
    · rw [h, hid]
      have := sbl l (List.getElem?_mem hl)
      omega
  · intro l2 hl2
    rcases List.mem_or_eq_of_mem_set hl2 with h | h
    · rcases stl l2 h with ⟨h1, h2⟩
      refine ⟨h1, fun td htd => ?_⟩
      show td.id < n
      have := h2 td htd
      omega
    · rw [h]
      exact ⟨hnodup, hbound⟩

theorem dbInv_todos_map {db : DB} (hdb : db.inv) (u : TodoRow → TodoRow)
    (hid : ∀ td, (u td).id = td.id) (hlid : ∀ td, (u td).list_id = td.list_id) :
    DB.inv { db with todos := db.todos.map u } := by
  obtain ⟨hnd, hndT, hbl, hbt, hfk⟩ := hdb
  refine ⟨hnd, ?_, hbl, ?_, ?_⟩
  · have h1 : (db.todos.map u).map TodoRow.id = db.todos.map TodoRow.id := by
      rw [List.map_map]
      exact List.map_congr_left (fun td _ => hid td)
    rw [h1]
    exact hndT
  · intro td htd
    rcases List.mem_map.mp htd with ⟨td0, h0, he⟩
    rw [← he, hid]
    exact hbt td0 h0
  · intro td htd
    rcases List.mem_map.mp htd with ⟨td0, h0, he⟩
    rcases hfk td0 h0 with ⟨r, hr, hrid⟩
    exact ⟨r, hr, by rw [← he, hlid, hrid]⟩

theorem dbInv_todos_filter {db : DB} (hdb : db.inv) (q : TodoRow → Bool) :
    DB.inv { db with todos := db.todos.filter q } := by
  obtain ⟨hnd, hndT, hbl, hbt, hfk⟩ := hdb
  refine ⟨hnd, ?_, hbl, ?_, ?_⟩
  · exact (((db.todos.filter_sublist).map TodoRow.id).nodup hndT)
  · intro td htd
    exact hbt td (List.mem_of_mem_filter htd)
  · intro td htd
    exact hfk td (List.mem_of_mem_filter htd)

theorem simUpdateList (db : DB) (s : Sess) (i j : Nat) (t : String) (hdb : db.inv)
    (hs : s.inv) (hobs : db.obs = s.obs)
    (hv : validOp db s (.updateList i j t) = true) :
    ∃ db2 rd s2 rs, dbStep db (.updateList i j t) = .ok (db2, rd)
      ∧ sessStep s (.updateList i j t) = some (s2, rs)
      ∧ rd.obs = rs.obs ∧ db2.inv ∧ s2.inv ∧ db2.obs = s2.obs := by
  have hv2 : (corrList db s i j && titleOk t &&
      db.lists.all (fun r => r.title != t)) = true ∨ absentBoth db s i j = true := by
    simpa [validOp, Bool.or_eq_true] using hv
  rcases hv2 with hv2 | hv2
  · -- the list exists in both variants
    obtain ⟨⟨hc, htOk⟩, hall0⟩ : (corrList db s i j = true ∧ titleOk t = true) ∧
        db.lists.all (fun r => r.title != t) = true := by
      simpa [Bool.and_eq_true] using hv2
    have hall : ∀ r ∈ db.lists, ¬ r.title = t := by
      intro r hr
      simpa using List.all_eq_true.mp hall0 r hr
    rcases corrList_elim hc with ⟨k, x, l, hdm, hsm, hx, hxi, hl, hlj⟩
    subst hxi
    subst hlj
    have hlmem : l ∈ s.lists := List.getElem?_mem hl
    have hltodos := hs.2.2 l hlmem
    obtain ⟨hnd, hndT, hbl, hbt, hfk⟩ := hdb
    have hxmem : x ∈ db.lists := List.getElem?_mem hx
    have hifFalse : (db.lists.all (fun row => row.id != x.id)) = false := by
      cases hc2 : db.lists.all (fun row => row.id != x.id) with
      | false => rfl
      | true =>
        have := List.all_eq_true.mp hc2 x hxmem
        simp at this
    have hcond2 : (titleOk t &&
        db.lists.all (fun row => row.id == x.id || row.title != t)) = true := by
      rw [Bool.and_eq_true]
      refine ⟨htOk, List.all_eq_true.mpr ?_⟩
      intro r hr
      have := hall r hr
      simp [this]
    refine ⟨{ db with lists := db.lists.map (fun row =>
        if row.id == x.id then { row with title := t } else row) }, DRes.unit,
      { s with lists := s.lists.set k ({ l with title := t }), modified := true },
      SRes.unit, ?_, ?_, rfl, ?_, ?_, ?_⟩
    · simp [dbStep, DB.update_list_by_id, hifFalse, hcond2]
    · have hfs : s.lists.find? (fun l2 => l2.id == l.id) = some l :=
        find?_of_posOf hsm hl
      have hmod : modifyFirst (fun lst => lst.id == l.id)
          (fun lst => { lst with title := t }) s.lists =
            s.lists.set k ({ l with title := t }) :=
        modifyFirst_of_posOf hsm hl
      simp [sessStep, Sess.update_list_by_id, Sess.find_list, hfs, hmod]
    · refine ⟨?_, hndT, ?_, hbt, ?_⟩
      · have h1 : (db.lists.map (fun row =>
            if row.id == x.id then { row with title := t } else row)).map ListRow.id
              = db.lists.map ListRow.id := by
          rw [List.map_map]
          refine List.map_congr_left ?_
          intro r _
          by_cases hcase : (r.id == x.id) = true <;> simp [Function.comp, hcase]
        rw [h1]
        exact hnd
      · intro r hr
        rcases List.mem_map.mp hr with ⟨r0, h0, he⟩
        have hb := hbl r0 h0
        rw [← he]
        by_cases hcase : (r0.id == x.id) = true <;> simp [hcase] <;> omega
      · intro td htd
        rcases hfk td htd with ⟨r, hr, hrid⟩
        refine ⟨if r.id == x.id then { r with title := t } else r,
          List.mem_map_of_mem _ hr, ?_⟩
        by_cases hcase : (r.id == x.id) = true
        · rw [if_pos hcase]
          exact hrid
        · rw [if_neg hcase]
          exact hrid
    · exact sessInv_set hs hl (fun lst => { lst with title := t }) rfl
        s.nextToken (Nat.le_refl _) hltodos.1 hltodos.2
    · have hpt := obs_point hobs k hx hl
      have hV : (db.find_todos_for_list x.id).map TodoRow.obs =
          l.todos.map STodo.obs := congrArg Prod.snd hpt
      have e1 : ({ db with lists := db.lists.map (fun row =>
            if row.id == x.id then { row with title := t } else row) } : DB).obs
          = db.lists.map (fun r =>
              ((if r.id == x.id then { r with title := t } else r).title,
                (db.find_todos_for_list
                  (if r.id == x.id then { r with title := t } else r).id).map
                    TodoRow.obs)) := by
        have h0 : ({ db with lists := db.lists.map (fun row =>
              if row.id == x.id then { row with title := t } else row) } : DB).obs
            = (db.lists.map (fun row =>
                if row.id == x.id then { row with title := t } else row)).map
                (fun r => (r.title, (db.find_todos_for_list r.id).map TodoRow.obs)) :=
          dbObs_def _
        rw [h0, List.map_map]
        rfl
      have e2 := map_eq_set_map (l := db.lists)
        (g := fun r =>
          ((if r.id == x.id then { r with title := t } else r).title,
            (db.find_todos_for_list
              (if r.id == x.id then { r with title := t } else r).id).map
                TodoRow.obs))
        (h := fun r => (r.title, (db.find_todos_for_list r.id).map TodoRow.obs))
        hx (fun n y hn hy => by
          have hne := key_other_false ListRow.id hnd hx n y hn hy
          simp [hne])
      have e3 : db.lists.map (fun r =>
          (r.title, (db.find_todos_for_list r.id).map TodoRow.obs)) = db.obs :=
        (dbObs_def db).symm
      have e4 : ({ s with
            lists := s.lists.set k ({ l with title := t }),
            modified := true } : Sess).obs
          = s.obs.set k (t, l.todos.map STodo.obs) := by
        show (s.lists.set k ({ l with title := t })).map SList.obs = _
        rw [List.map_set]
        rfl
      rw [e1, e2, e3, e4, hobs]
      simp [hV]
  · obtain ⟨hA, hB⟩ : db.lists.all (fun row => row.id != i) = true ∧
        s.lists.all (fun l2 => l2.id != j) = true := by
      simpa [absentBoth, Bool.and_eq_true] using hv2
    have hfind : s.lists.find? (fun l2 => l2.id == j) = none := by
      apply List.find?_eq_none.mpr
      intro l2 hl2
      have := List.all_eq_true.mp hB l2 hl2
      simpa using this
    refine ⟨db, DRes.unit, s, SRes.unit, ?_, ?_, rfl, hdb, hs, hobs⟩
    · simp [dbStep, DB.update_list_by_id, hA]
    · simp [sessStep, Sess.update_list_by_id, Sess.find_list, hfind]

theorem filter_ne_eq_eraseIdx {α : Type} (key : α → Nat) {l : List α} {k : Nat}
    {x : α} (hnd : (l.map key).Nodup) (hx : l[k]? = some x) :
    l.filter (fun a => key a != key x) = l.eraseIdx k := by
  have h := filter_eq_eraseIdx (p := fun a => key a == key x) hx (by simp)
    (fun n y hn hy => key_other_false key hnd hx n y hn hy)
  exact h

theorem simDeleteList (db : DB) (s : Sess) (i j : Nat) (hdb : db.inv) (hs : s.inv)
    (hobs : db.obs = s.obs) (hv : validOp db s (.deleteList i j) = true) :
    ∃ db2 rd s2 rs, dbStep db (.deleteList i j) = .ok (db2, rd)
      ∧ sessStep s (.deleteList i j) = some (s2, rs)
      ∧ rd.obs = rs.obs ∧ db2.inv ∧ s2.inv ∧ db2.obs = s2.obs := by
  obtain ⟨hnd, hndT, hbl, hbt, hfk⟩ := hdb
  obtain ⟨snd, sbl, stl⟩ := hs
  have hv2 : corrList db s i j = true ∨ absentBoth db s i j = true := by
    simpa [validOp, Bool.or_eq_true] using hv
  refine ⟨db.delete_list i, DRes.unit, s.delete_list j, SRes.unit, rfl, rfl, rfl,
    ?_, ?_, ?_⟩
  · -- relational invariant
    refine ⟨?_, ?_, ?_, ?_, ?_⟩
    · exact ((db.lists.filter_sublist).map ListRow.id).nodup hnd
    · exact ((db.todos.filter_sublist).map TodoRow.id).nodup hndT
    · intro r hr
      exact hbl r (List.mem_of_mem_filter hr)
    · intro td htd
      exact hbt td (List.mem_of_mem_filter htd)
    · intro td htd
      have htdf : td ∈ db.todos.filter (fun td2 => td2.list_id != i) := htd
      have htdin : td ∈ db.todos := List.mem_of_mem_filter htdf
      have htdq : (td.list_id != i) = true := (List.mem_filter.mp htdf).2
      rcases hfk td htdin with ⟨r, hr, hrid⟩
      refine ⟨r, List.mem_filter.mpr ⟨hr, ?_⟩, hrid⟩
      rw [hrid]
      exact htdq
  · -- session invariant
    refine ⟨?_, ?_, ?_⟩
    · exact ((s.lists.filter_sublist).map SList.id).nodup snd
    · intro l hl
      exact sbl l (List.mem_of_mem_filter hl)
    · intro l hl
      exact stl l (List.mem_of_mem_filter hl)
  · -- observable equality
    rcases hv2 with hc | hab
    · rcases corrList_elim hc with ⟨k, x, l, hdm, hsm, hx, hxi, hl, hlj⟩
      subst hxi
      subst hlj
      have hLnodup : db.lists.Nodup := List.Nodup.of_map _ hnd
      have hErase : db.lists.filter (fun row => row.id != x.id) =
          db.lists.eraseIdx k := filter_ne_eq_eraseIdx ListRow.id hnd hx
      have hSErase : s.lists.filter (fun l2 => l2.id != l.id) =
          s.lists.eraseIdx k := filter_ne_eq_eraseIdx SList.id snd hl
      have hviews : ∀ id2, id2 ≠ x.id →
          (db.delete_list x.id).find_todos_for_list id2 =
            db.find_todos_for_list id2 := by
        intro id2 hne
        show (db.todos.filter (fun td => td.list_id != x.id)).filter
            (fun td => td.list_id == id2) = _
        rw [List.filter_filter]
        refine List.filter_congr ?_
        intro td _
        cases hq : (td.list_id == id2) with
        | false => rfl
        | true =>
          have : td.list_id = id2 := by simpa using hq
          simp [this, hne]
      have e1 : (db.delete_list x.id).obs =
          (db.lists.eraseIdx k).map (fun r =>
            (r.title, (db.find_todos_for_list r.id).map TodoRow.obs)) := by
        have h0 : (db.delete_list x.id).obs =
            (db.lists.filter (fun row => row.id != x.id)).map (fun r =>
              (r.title, ((db.delete_list x.id).find_todos_for_list r.id).map
                TodoRow.obs)) := dbObs_def _
        rw [h0, hErase]
        refine List.map_congr_left ?_
        intro r hr
        have hrin : r ∈ db.lists := (List.eraseIdx_sublist db.lists k).mem hr
        have hrne : r.id ≠ x.id := by
          intro he
          have hrx : r = x := List.inj_on_of_nodup_map hnd hrin
            (List.getElem?_mem hx) he
          subst hrx
          exact not_mem_eraseIdx_of_nodup hLnodup hx hr
        rw [hviews r.id hrne]
      have e2 : (s.delete_list l.id).obs = (s.lists.eraseIdx k).map SList.obs := by
        show (s.lists.filter (fun l2 => l2.id != l.id)).map SList.obs = _
        rw [hSErase]
      rw [e1, e2, eraseIdx_map_comm, eraseIdx_map_comm]
      have : db.lists.map (fun r =>
          (r.title, (db.find_todos_for_list r.id).map TodoRow.obs)) = db.obs :=
        (dbObs_def db).symm
      rw [this, hobs]
      rfl
    · obtain ⟨hA, hB⟩ : db.lists.all (fun row => row.id != i) = true ∧
          s.lists.all (fun l2 => l2.id != j) = true := by
        simpa [absentBoth, Bool.and_eq_true] using hab
      have hfl : db.lists.filter (fun row => row.id != i) = db.lists :=
        List.filter_eq_self.mpr (fun r hr => List.all_eq_true.mp hA r hr)
      have hft : db.todos.filter (fun td => td.list_id != i) = db.todos := by
        refine List.filter_eq_self.mpr ?_
        intro td htd
        rcases hfk td htd with ⟨r, hr, hrid⟩
        have := List.all_eq_true.mp hA r hr
        rw [← hrid]
        exact this
      have hsl : s.lists.filter (fun l2 => l2.id != j) = s.lists :=
        List.filter_eq_self.mpr (fun l2 hl2 => List.all_eq_true.mp hB l2 hl2)
      have e1 : (db.delete_list i).obs = db.obs := by
        have h0 : (db.delete_list i).obs =
            (db.lists.filter (fun row => row.id != i)).map (fun r =>
              (r.title, ((db.delete_list i).find_todos_for_list r.id).map
                TodoRow.obs)) := dbObs_def _
        rw [h0, hfl, dbObs_def db]
        refine List.map_congr_left ?_
        intro r _
        show (r.title, ((db.todos.filter (fun td => td.list_id != i)).filter
            (fun td => td.list_id == r.id)).map TodoRow.obs) = _
        rw [hft]
        rfl
      have e2 : (s.delete_list j).obs = s.obs := by
        show (s.lists.filter (fun l2 => l2.id != j)).map SList.obs = _
        rw [hsl]
        rfl
      rw [e1, e2, hobs]

theorem simCreateTodo (db : DB) (s : Sess) (i j : Nat) (t : String) (hdb : db.inv)
    (hs : s.inv) (hobs : db.obs = s.obs)
    (hv : validOp db s (.createTodo i j t) = true) :
    ∃ db2 rd s2 rs, dbStep db (.createTodo i j t) = .ok (db2, rd)
      ∧ sessStep s (.createTodo i j t) = some (s2, rs)
      ∧ rd.obs = rs.obs ∧ db2.inv ∧ s2.inv ∧ db2.obs = s2.obs := by
  obtain ⟨hc, htOk⟩ : corrList db s i j = true ∧ titleOk t = true := by
    simpa [validOp, Bool.and_eq_true] using hv
  rcases corrList_elim hc with ⟨k, x, l, hdm, hsm, hx, hxi, hl, hlj⟩
  subst hxi
  subst hlj
  have hlmem : l ∈ s.lists := List.getElem?_mem hl
  have hltodos := hs.2.2 l hlmem
  obtain ⟨hnd, hndT, hbl, hbt, hfk⟩ := hdb
  have hxmem : x ∈ db.lists := List.getElem?_mem hx
  have hcond : (titleOk t && db.lists.any (fun row => row.id == x.id)) = true := by
    rw [Bool.and_eq_true]
    exact ⟨htOk, List.any_eq_true.mpr ⟨x, hxmem, by simp⟩⟩
  have hfs : s.lists.find? (fun l2 => l2.id == l.id) = some l :=
    find?_of_posOf hsm hl
  have hmod : modifyFirst (fun lst => lst.id == l.id)
      (fun lst => ({ lst with todos := lst.todos ++
        [{ id := s.nextToken, title := t, completed := false }] })) s.lists =
      s.lists.set k ({ l with todos := l.todos ++
        [{ id := s.nextToken, title := t, completed := false }] }) :=
    modifyFirst_of_posOf hsm hl
  refine ⟨{ db with
      todos := db.todos ++ [({ id := db.next_todo_id, title := t, completed := false, list_id := x.id } : TodoRow)],
      next_todo_id := db.next_todo_id + 1 }, DRes.unit,
    { s with
      lists := s.lists.set k ({ l with todos := l.todos ++
        [{ id := s.nextToken, title := t, completed := false }] }),
      nextToken := s.nextToken + 1,
      modified := true }, SRes.unit, ?_, ?_, rfl, ?_, ?_, ?_⟩
  · simp [dbStep, DB.create_new_todo, hcond]
  · simp [sessStep, Sess.create_new_todo, Sess.find_list, hfs, hmod]
  · -- relational invariant
    refine ⟨hnd, ?_, hbl, ?_, ?_⟩
    · rw [List.map_append]
      refine List.Nodup.append hndT (by simp) ?_
      intro a ha hb
      have ha2 : a = db.next_todo_id := by simpa using hb
      subst ha2
      rcases List.mem_map.mp ha with ⟨td, htd, hte⟩
      have := hbt td htd
      omega
    · intro td htd
      show td.id < db.next_todo_id + 1
      rcases List.mem_append.mp htd with h | h
      · have := hbt td h
        omega
      · have he : td = { id := db.next_todo_id, title := t, completed := false, list_id := x.id } := by simpa using h
        subst he
        simp
    · intro td htd
      rcases List.mem_append.mp htd with h | h
      · exact hfk td h
      · have he : td = { id := db.next_todo_id, title := t, completed := false, list_id := x.id } := by simpa using h
        subst he
        exact ⟨x, hxmem, rfl⟩
  · -- session invariant
    refine sessInv_set hs hl (fun lst => ({ lst with todos := lst.todos ++
      [{ id := s.nextToken, title := t, completed := false }] })) rfl
      (s.nextToken + 1) (Nat.le_succ _) ?_ ?_
    · rw [List.map_append]
      refine List.Nodup.append hltodos.1 (by simp) ?_
      intro a ha hb
      have ha2 : a = s.nextToken := by simpa using hb
      subst ha2
      rcases List.mem_map.mp ha with ⟨td, htd, hte⟩
      have := hltodos.2 td htd
      omega
    · intro td htd
      rcases List.mem_append.mp htd with h | h
      · have := hltodos.2 td h
        omega
      · have he : td = { id := s.nextToken, title := t, completed := false } := by
          simpa using h
        subst he
        simp
  · -- observable equality
    have hpt := obs_point hobs k hx hl
    have hT : x.title = l.title := congrArg Prod.fst hpt
    have hV : (db.find_todos_for_list x.id).map TodoRow.obs =
        l.todos.map STodo.obs := congrArg Prod.snd hpt
    have e1 : ({ db with
        todos := db.todos ++ [({ id := db.next_todo_id, title := t, completed := false, list_id := x.id } : TodoRow)],
        next_todo_id := db.next_todo_id + 1 } : DB).obs
      = db.lists.map (fun r => (r.title,
          ((db.todos ++ [({ id := db.next_todo_id, title := t, completed := false, list_id := x.id } : TodoRow)]).filter
              (fun td => td.list_id == r.id)).map TodoRow.obs)) := dbObs_def _
    have e2 := map_eq_set_map (l := db.lists)
      (g := fun r => (r.title,
        ((db.todos ++ [({ id := db.next_todo_id, title := t, completed := false, list_id := x.id } : TodoRow)]).filter
            (fun td => td.list_id == r.id)).map TodoRow.obs))
      (h := fun r => (r.title, (db.find_todos_for_list r.id).map TodoRow.obs))
      hx (fun n y hn hy => by
        have hne := key_other_false ListRow.id hnd hx n y hn hy
        have hne2 : (x.id == y.id) = false := by
          refine beq_eq_false_iff_ne.mpr ?_
          have : y.id ≠ x.id := by simpa using hne
          exact this.symm
        simp [List.filter_append, DB.find_todos_for_list, hne2])
    have e3 : db.lists.map (fun r =>
        (r.title, (db.find_todos_for_list r.id).map TodoRow.obs)) = db.obs :=
      (dbObs_def db).symm
    have e4 : ({ s with
        lists := s.lists.set k ({ l with todos := l.todos ++
          [{ id := s.nextToken, title := t, completed := false }] }),
        nextToken := s.nextToken + 1,
        modified := true } : Sess).obs
      = s.obs.set k (l.title, l.todos.map STodo.obs ++ [(t, false)]) := by
      show (s.lists.set k ({ l with todos := l.todos ++
        [{ id := s.nextToken, title := t, completed := false }] })).map SList.obs = _
      rw [List.map_set]
      simp [SList.obs, STodo.obs]
      rfl
    rw [e1, e2, e3, e4, hobs]
    refine congrArg (s.obs.set k) ?_
    show (x.title, ((db.todos ++ [({ id := db.next_todo_id, title := t, completed := false, list_id := x.id } : TodoRow)]).filter
        (fun td => td.list_id == x.id)).map TodoRow.obs) = _
    have hviewx : (db.todos ++ [({ id := db.next_todo_id, title := t, completed := false, list_id := x.id } : TodoRow)]).filter
          (fun td => td.list_id == x.id)
        = db.find_todos_for_list x.id ++ [({ id := db.next_todo_id, title := t, completed := false, list_id := x.id } : TodoRow)] := by
      simp [DB.find_todos_for_list, List.filter_append]
    rw [hviewx, List.map_append, hV, hT]
    rfl

theorem filter_map_comm {α β : Type} (l : List α) (f : α → β) (p : β → Bool) :
    (l.map f).filter p = (l.filter (fun a => p (f a))).map f := by
  induction l with
  | nil => rfl
  | cons x xs ih =>
    cases hp : p (f x) <;> simp [List.filter_cons, hp, ih]

theorem corrTodo_elim {db : DB} {s : Sess} {i j ti tj : Nat}
    (h : corrTodo db s i j ti tj = true) :
    corrList db s i j = true ∧
    ∃ m y l td2, posOf (fun td => td.id == ti) (db.find_todos_for_list i) = some m
      ∧ (db.find_todos_for_list i)[m]? = some y ∧ y.id = ti
      ∧ s.find_list j = some l
      ∧ posOf (fun td => td.id == tj) l.todos = some m
      ∧ l.todos[m]? = some td2 ∧ td2.id = tj := by
  unfold corrTodo at h
  rw [Bool.and_eq_true] at h
  obtain ⟨hc, hm⟩ := h
  refine ⟨hc, ?_⟩
  rcases hdm : posOf (fun td => td.id == ti) (db.find_todos_for_list i) with _ | m
  · rw [hdm] at hm
    exact absurd hm (by simp)
  rcases hsm : (s.find_list j).bind
      (fun l => posOf (fun td => td.id == tj) l.todos) with _ | m2
  · rw [hdm, hsm] at hm
    exact absurd hm (by simp)
  rw [hdm, hsm] at hm
  have hmm : m = m2 := by simpa using hm
  subst hmm
  rcases Option.bind_eq_some.mp hsm with ⟨l, hfl, hpl⟩
  rcases posOf_some hdm with ⟨y, hy, hpy⟩
  rcases posOf_some hpl with ⟨td2, htd2, hptd2⟩
  exact ⟨m, y, l, td2, hdm, hy, by simpa using hpy, hfl, hpl, htd2,
    by simpa using hptd2⟩

theorem simDeleteTodo (db : DB) (s : Sess) (i j ti tj : Nat) (hdb : db.inv)
    (hs : s.inv) (hobs : db.obs = s.obs)
    (hv : validOp db s (.deleteTodo i j ti tj) = true) :
    ∃ db2 rd s2 rs, dbStep db (.deleteTodo i j ti tj) = .ok (db2, rd)
      ∧ sessStep s (.deleteTodo i j ti tj) = some (s2, rs)
      ∧ rd.obs = rs.obs ∧ db2.inv ∧ s2.inv ∧ db2.obs = s2.obs := by
  have hv2 : corrTodo db s i j ti tj = true := by simpa [validOp] using hv
  obtain ⟨hc, m, y, l0, td2, hdm2, hy, hyi, hfl0, hpl, htd2, htdj⟩ :=
    corrTodo_elim hv2
  rcases corrList_elim hc with ⟨k, x, l, hdm, hsm, hx, hxi, hl, hlj⟩
  subst hxi
  subst hlj
  subst hyi
  subst htdj
  have hnd := hdb.1
  have hndT := hdb.2.1
  have hfs : s.lists.find? (fun l2 => l2.id == l.id) = some l :=
    find?_of_posOf hsm hl
  have hll0 : l = l0 := by
    have h2 : s.find_list l.id = some l := hfs
    rw [h2] at hfl0
    exact Option.some_inj.mp hfl0
  subst hll0
  have hlmem : l ∈ s.lists := List.getElem?_mem hl
  have hltodos := hs.2.2 l hlmem
  have hviewNodup : ((db.find_todos_for_list x.id).map TodoRow.id).Nodup :=
    ((db.todos.filter_sublist).map TodoRow.id).nodup hndT
  have hmod : modifyFirst (fun lst => lst.id == l.id)
      (fun lst => ({ lst with
        todos := lst.todos.filter (fun td => td.id != td2.id) })) s.lists =
      s.lists.set k ({ l with
        todos := l.todos.filter (fun td => td.id != td2.id) }) :=
    modifyFirst_of_posOf hsm hl
  refine ⟨db.delete_todo_from_list x.id y.id, DRes.unit,
    { s with
      lists := s.lists.set k ({ l with
        todos := l.todos.filter (fun td => td.id != td2.id) }),
      modified := true }, SRes.unit, rfl, ?_, rfl, ?_, ?_, ?_⟩
  · simp [sessStep, Sess.delete_todo_from_list, Sess.find_list, hfs, hmod]
  · exact dbInv_todos_filter hdb _
  · refine sessInv_set hs hl (fun lst => ({ lst with
      todos := lst.todos.filter (fun td => td.id != td2.id) })) rfl
      s.nextToken (Nat.le_refl _) ?_ ?_
    · exact ((l.todos.filter_sublist).map STodo.id).nodup hltodos.1
    · intro td htd
      exact hltodos.2 td (List.mem_of_mem_filter htd)
  · -- observable equality
    have hpt := obs_point hobs k hx hl
    have hT : x.title = l.title := congrArg Prod.fst hpt
    have hV : (db.find_todos_for_list x.id).map TodoRow.obs =
        l.todos.map STodo.obs := congrArg Prod.snd hpt
    have hVerase : (db.find_todos_for_list x.id).filter
        (fun td => !(td.id == y.id)) = (db.find_todos_for_list x.id).eraseIdx m :=
      filter_eq_eraseIdx hy (by simp)
        (fun n z hn hz => key_other_false TodoRow.id hviewNodup hy n z hn hz)
    have hWerase : l.todos.filter (fun td => td.id != td2.id) =
        l.todos.eraseIdx m :=
      filter_ne_eq_eraseIdx STodo.id hltodos.1 htd2
    have e1 : (db.delete_todo_from_list x.id y.id).obs
      = db.lists.map (fun r => (r.title,
          ((db.todos.filter (fun td => !(td.list_id == x.id && td.id == y.id))).filter
            (fun td => td.list_id == r.id)).map TodoRow.obs)) := dbObs_def _
    have e2 := map_eq_set_map (l := db.lists)
      (g := fun r => (r.title,
        ((db.todos.filter (fun td => !(td.list_id == x.id && td.id == y.id))).filter
          (fun td => td.list_id == r.id)).map TodoRow.obs))
      (h := fun r => (r.title, (db.find_todos_for_list r.id).map TodoRow.obs))
      hx (fun n z hn hz => by
        have hne := key_other_false ListRow.id hnd hx n z hn hz
        have hzx : z.id ≠ x.id := by simpa using hne
        refine congrArg (fun w => (z.title, w)) ?_
        rw [List.filter_filter]
        refine congrArg (fun w => List.map TodoRow.obs w) ?_
        refine List.filter_congr ?_
        intro td _
        cases hq : (td.list_id == z.id) with
        | false => simp [hq]
        | true =>
          have htz : td.list_id = z.id := by simpa using hq
          have : (td.list_id == x.id) = false := by
            rw [htz]
            exact beq_eq_false_iff_ne.mpr hzx
          simp [hq, this])
    have e3 : db.lists.map (fun r =>
        (r.title, (db.find_todos_for_list r.id).map TodoRow.obs)) = db.obs :=
      (dbObs_def db).symm
    have e4 : ({ s with
        lists := s.lists.set k ({ l with
          todos := l.todos.filter (fun td => td.id != td2.id) }),
        modified := true } : Sess).obs
      = s.obs.set k (l.title, (l.todos.eraseIdx m).map STodo.obs) := by
      show (s.lists.set k ({ l with
        todos := l.todos.filter (fun td => td.id != td2.id) })).map SList.obs = _
      rw [List.map_set, hWerase]
      rfl
    rw [e1, e2, e3, e4, hobs]
    refine congrArg (s.obs.set k) ?_
    show (x.title,
      ((db.todos.filter (fun td => !(td.list_id == x.id && td.id == y.id))).filter
        (fun td => td.list_id == x.id)).map TodoRow.obs) = _
    have hviewx : (db.todos.filter
        (fun td => !(td.list_id == x.id && td.id == y.id))).filter
          (fun td => td.list_id == x.id)
        = (db.find_todos_for_list x.id).filter (fun td => !(td.id == y.id)) := by
      rw [List.filter_filter]
      show _ = (db.todos.filter (fun td => td.list_id == x.id)).filter
        (fun td => !(td.id == y.id))
      rw [List.filter_filter]
      refine List.filter_congr ?_
      intro td _
      cases hq : (td.list_id == x.id) <;> cases hq2 : (td.id == y.id) <;>
        simp [hq, hq2]
    rw [hviewx, hVerase, hT, eraseIdx_map_comm, hV, eraseIdx_map_comm]

theorem simUpdateTodo (db : DB) (s : Sess) (i j ti tj : Nat) (b : Bool)
    (hdb : db.inv) (hs : s.inv) (hobs : db.obs = s.obs)
    (hv : validOp db s (.updateTodo i j ti tj b) = true) :
    ∃ db2 rd s2 rs, dbStep db (.updateTodo i j ti tj b) = .ok (db2, rd)
      ∧ sessStep s (.updateTodo i j ti tj b) = some (s2, rs)
      ∧ rd.obs = rs.obs ∧ db2.inv ∧ s2.inv ∧ db2.obs = s2.obs := by
  have hv2 : corrTodo db s i j ti tj = true := by simpa [validOp] using hv
  obtain ⟨hc, m, y, l0, td2, hdm2, hy, hyi, hfl0, hpl, htd2, htdj⟩ :=
    corrTodo_elim hv2
  rcases corrList_elim hc with ⟨k, x, l, hdm, hsm, hx, hxi, hl, hlj⟩
  subst hxi
  subst hlj
  subst hyi
  subst htdj
  have hnd := hdb.1
  have hndT := hdb.2.1
  have hfs : s.lists.find? (fun l2 => l2.id == l.id) = some l :=
    find?_of_posOf hsm hl
  have hll0 : l = l0 := by
    have h2 : s.find_list l.id = some l := hfs
    rw [h2] at hfl0
    exact Option.some_inj.mp hfl0
  subst hll0
  have hlmem : l ∈ s.lists := List.getElem?_mem hl
  have hltodos := hs.2.2 l hlmem
  have hviewNodup : ((db.find_todos_for_list x.id).map TodoRow.id).Nodup :=
    ((db.todos.filter_sublist).map TodoRow.id).nodup hndT
  have hymem : y ∈ db.find_todos_for_list x.id := List.getElem?_mem hy
  have hylid : (y.list_id == x.id) = true := (List.mem_filter.mp hymem).2
  have htd2mem : td2 ∈ l.todos := List.getElem?_mem htd2
  have hfindT : l.todos.find? (fun td => td.id == td2.id) = some td2 :=
    find?_of_posOf hpl htd2
  have hmodT : modifyFirst (fun td => td.id == td2.id)
      (fun td => ({ td with completed := b })) l.todos =
      l.todos.set m ({ td2 with completed := b }) :=
    modifyFirst_of_posOf hpl htd2
  have hmod2 : modifyFirst (fun lst => lst.id == l.id)
      (fun lst => ({ lst with
        todos := modifyFirst (fun td => td.id == td2.id)
            (fun td => ({ td with completed := b })) lst.todos })) s.lists =
      s.lists.set k ({ l with
        todos := l.todos.set m ({ td2 with completed := b }) }) := by
    rw [modifyFirst_of_posOf hsm hl, hmodT]
  have hupres : ∀ td : TodoRow,
      ((if td.list_id == x.id && td.id == y.id then
        ({ td with completed := b }) else td) : TodoRow).list_id = td.list_id := by
    intro td
    by_cases hcc : (td.list_id == x.id && td.id == y.id) = true <;> simp [hcc]
  have hupid : ∀ td : TodoRow,
      ((if td.list_id == x.id && td.id == y.id then
        ({ td with completed := b }) else td) : TodoRow).id = td.id := by
    intro td
    by_cases hcc : (td.list_id == x.id && td.id == y.id) = true <;> simp [hcc]
  refine ⟨db.update_todo_status x.id y.id b, DRes.unit,
    { s with
      lists := s.lists.set k ({ l with
        todos := l.todos.set m ({ td2 with completed := b }) }),
      modified := true }, SRes.unit, rfl, ?_, rfl, ?_, ?_, ?_⟩
  · simp [sessStep, Sess.update_todo_status, Sess.find_list, hfs, hfindT, hmod2]
  · exact dbInv_todos_map hdb _ hupid hupres
  · refine sessInv_set hs hl (fun lst => ({ lst with
      todos := lst.todos.set m ({ td2 with completed := b }) })) rfl
      s.nextToken (Nat.le_refl _) ?_ ?_
    · have h1 : (l.todos.set m ({ td2 with completed := b })).map STodo.id =
          (l.todos.map STodo.id).set m td2.id := by
        rw [List.map_set]
      have h2 : (l.todos.map STodo.id)[m]? = some td2.id := by
        simp [List.getElem?_map, htd2]
      rw [h1, set_of_getElem?_eq h2]
      exact hltodos.1
    · intro td htd
      rcases List.mem_or_eq_of_mem_set htd with h | h
      · exact hltodos.2 td h
      · rw [h]
        exact hltodos.2 td2 htd2mem
  · -- observable equality
    have hpt := obs_point hobs k hx hl
    have hT : x.title = l.title := congrArg Prod.fst hpt
    have hV : (db.find_todos_for_list x.id).map TodoRow.obs =
        l.todos.map STodo.obs := congrArg Prod.snd hpt
    have hYT : y.title = td2.title := by
      have h1 := congrArg (fun w : List (String × Bool) => w[m]?) hV
      simp only [List.getElem?_map, hy, htd2, Option.map_some'] at h1
      have h2 : TodoRow.obs y = STodo.obs td2 := Option.some_inj.mp h1
      exact congrArg Prod.fst h2
    have e1 : (db.update_todo_status x.id y.id b).obs
      = db.lists.map (fun r => (r.title,
          ((db.todos.map (fun td => if td.list_id == x.id && td.id == y.id then
            ({ td with completed := b }) else td)).filter
              (fun td => td.list_id == r.id)).map TodoRow.obs)) := dbObs_def _
    have e2 := map_eq_set_map (l := db.lists)
      (g := fun r => (r.title,
        ((db.todos.map (fun td => if td.list_id == x.id && td.id == y.id then
          ({ td with completed := b }) else td)).filter
            (fun td => td.list_id == r.id)).map TodoRow.obs))
      (h := fun r => (r.title, (db.find_todos_for_list r.id).map TodoRow.obs))
      hx (fun n z hn hz => by
        have hne := key_other_false ListRow.id hnd hx n z hn hz
        have hzx : z.id ≠ x.id := by simpa using hne
        refine congrArg (fun w => (z.title, w)) ?_
        rw [filter_map_comm]
        refine congrArg (fun w => List.map TodoRow.obs w) ?_
        have hf1 : db.todos.filter (fun td =>
            ((if td.list_id == x.id && td.id == y.id then
              ({ td with completed := b }) else td) : TodoRow).list_id == z.id) =
            db.todos.filter (fun td => td.list_id == z.id) :=
          List.filter_congr (fun td _ => by rw [hupres td])
        rw [hf1]
        refine (List.map_congr_left ?_).trans (List.map_id _)
        intro td htdmem
        have htz : (td.list_id == z.id) = true := (List.mem_filter.mp htdmem).2
        have : (td.list_id == x.id) = false := by
          have h3 : td.list_id = z.id := by simpa using htz
          rw [h3]
          exact beq_eq_false_iff_ne.mpr hzx
        simp [this])
    have e3 : db.lists.map (fun r =>
        (r.title, (db.find_todos_for_list r.id).map TodoRow.obs)) = db.obs :=
      (dbObs_def db).symm
    have e4 : ({ s with
        lists := s.lists.set k ({ l with
          todos := l.todos.set m ({ td2 with completed := b }) }),
        modified := true } : Sess).obs
      = s.obs.set k (l.title, (l.todos.map STodo.obs).set m (td2.title, b)) := by
      show (s.lists.set k ({ l with
        todos := l.todos.set m ({ td2 with completed := b }) })).map SList.obs = _
      rw [List.map_set]
      show (s.lists.map SList.obs).set k
        (l.title, (l.todos.set m ({ td2 with completed := b })).map STodo.obs) = _
      rw [List.map_set]
      rfl
    rw [e1, e2, e3, e4, hobs]
    refine congrArg (s.obs.set k) ?_
    show (x.title,
      ((db.todos.map (fun td => if td.list_id == x.id && td.id == y.id then
        ({ td with completed := b }) else td)).filter
          (fun td => td.list_id == x.id)).map TodoRow.obs) = _
    have hviewx : (db.todos.map (fun td =>
        if td.list_id == x.id && td.id == y.id then
          ({ td with completed := b }) else td)).filter
            (fun td => td.list_id == x.id)
        = (db.find_todos_for_list x.id).map (fun td =>
            if td.list_id == x.id && td.id == y.id then
              ({ td with completed := b }) else td) := by
      rw [filter_map_comm]
      refine congrArg _ ?_
      exact List.filter_congr (fun td _ => by rw [hupres td])
    rw [hviewx]
    have hsetm := map_eq_set_map (l := db.find_todos_for_list x.id)
      (g := fun td => if td.list_id == x.id && td.id == y.id then
        ({ td with completed := b }) else td)
      (h := fun td => td)
      hy (fun n z hn hz => by
        have hne := key_other_false TodoRow.id hviewNodup hy n z hn hz
        simp [hne])
    rw [hsetm]
    simp [hylid, hV, hT, hYT, TodoRow.obs, List.map_set]

theorem simMarkAll (db : DB) (s : Sess) (i j : Nat) (hdb : db.inv) (hs : s.inv)
    (hobs : db.obs = s.obs) (hv : validOp db s (.markAll i j) = true) :
    ∃ db2 rd s2 rs, dbStep db (.markAll i j) = .ok (db2, rd)
      ∧ sessStep s (.markAll i j) = some (s2, rs)
      ∧ rd.obs = rs.obs ∧ db2.inv ∧ s2.inv ∧ db2.obs = s2.obs := by
  have hc : corrList db s i j = true := by simpa [validOp] using hv
  rcases corrList_elim hc with ⟨k, x, l, hdm, hsm, hx, hxi, hl, hlj⟩
  subst hxi
  subst hlj
  have hnd := hdb.1
  have hfs : s.lists.find? (fun l2 => l2.id == l.id) = some l :=
    find?_of_posOf hsm hl
  have hlmem : l ∈ s.lists := List.getElem?_mem hl
  have hltodos := hs.2.2 l hlmem
  have hmod : modifyFirst (fun lst => lst.id == l.id)
      (fun lst => ({ lst with
        todos := lst.todos.map (fun td => ({ td with completed := true })) }))
      s.lists =
      s.lists.set k ({ l with
        todos := l.todos.map (fun td => ({ td with completed := true })) }) :=
    modifyFirst_of_posOf hsm hl
  have hupres : ∀ td : TodoRow,
      ((if td.list_id == x.id then ({ td with completed := true }) else td) :
        TodoRow).list_id = td.list_id := by
    intro td
    by_cases hcc : (td.list_id == x.id) = true <;> simp [hcc]
  have hupid : ∀ td : TodoRow,
      ((if td.list_id == x.id then ({ td with completed := true }) else td) :
        TodoRow).id = td.id := by
    intro td
    by_cases hcc : (td.list_id == x.id) = true <;> simp [hcc]
  refine ⟨db.mark_all_todos_completed x.id, DRes.unit,
    { s with
      lists := s.lists.set k ({ l with
        todos := l.todos.map (fun td => ({ td with completed := true })) }),
      modified := true }, SRes.unit, rfl, ?_, rfl, ?_, ?_, ?_⟩
  · simp [sessStep, Sess.mark_all_todos_completed, Sess.find_list, hfs, hmod]
  · exact dbInv_todos_map hdb _ hupid hupres
  · refine sessInv_set hs hl (fun lst => ({ lst with
      todos := lst.todos.map (fun td => ({ td with completed := true })) })) rfl
      s.nextToken (Nat.le_refl _) ?_ ?_
    · have h1 : ((l.todos.map (fun td => ({ td with completed := true }))).map
          STodo.id) = l.todos.map STodo.id := by
        rw [List.map_map]
        exact List.map_congr_left (fun td _ => rfl)
      rw [h1]
      exact hltodos.1
    · intro td htd
      rcases List.mem_map.mp htd with ⟨td0, h0, he⟩
      rw [← he]
      exact hltodos.2 td0 h0
  · -- observable equality
    have hpt := obs_point hobs k hx hl
    have hT : x.title = l.title := congrArg Prod.fst hpt
    have hV : (db.find_todos_for_list x.id).map TodoRow.obs =
        l.todos.map STodo.obs := congrArg Prod.snd hpt
    have e1 : (db.mark_all_todos_completed x.id).obs
      = db.lists.map (fun r => (r.title,
          ((db.todos.map (fun td => if td.list_id == x.id then
            ({ td with completed := true }) else td)).filter
              (fun td => td.list_id == r.id)).map TodoRow.obs)) := dbObs_def _
    have e2 := map_eq_set_map (l := db.lists)
      (g := fun r => (r.title,
        ((db.todos.map (fun td => if td.list_id == x.id then
          ({ td with completed := true }) else td)).filter
            (fun td => td.list_id == r.id)).map TodoRow.obs))
      (h := fun r => (r.title, (db.find_todos_for_list r.id).map TodoRow.obs))
      hx (fun n z hn hz => by
        have hne := key_other_false ListRow.id hnd hx n z hn hz
        have hzx : z.id ≠ x.id := by simpa using hne
        refine congrArg (fun w => (z.title, w)) ?_
        rw [filter_map_comm]
        refine congrArg (fun w => List.map TodoRow.obs w) ?_
        have hf1 : db.todos.filter (fun td =>
            ((if td.list_id == x.id then ({ td with completed := true }) else td) :
              TodoRow).list_id == z.id) =
            db.todos.filter (fun td => td.list_id == z.id) :=
          List.filter_congr (fun td _ => by rw [hupres td])
        rw [hf1]
        refine (List.map_congr_left ?_).trans (List.map_id _)
        intro td htdmem
        have htz : (td.list_id == z.id) = true := (List.mem_filter.mp htdmem).2
        have hfalse : (td.list_id == x.id) = false := by
          have h3 : td.list_id = z.id := by simpa using htz
          rw [h3]
          exact beq_eq_false_iff_ne.mpr hzx
        simp [hfalse])
    have e3 : db.lists.map (fun r =>
        (r.title, (db.find_todos_for_list r.id).map TodoRow.obs)) = db.obs :=
      (dbObs_def db).symm
    have e4 : ({ s with
        lists := s.lists.set k ({ l with
          todos := l.todos.map (fun td => ({ td with completed := true })) }),
        modified := true } : Sess).obs
      = s.obs.set k (l.title, l.todos.map (fun td => (td.title, true))) := by
      show (s.lists.set k ({ l with
        todos := l.todos.map (fun td => ({ td with completed := true })) })).map
          SList.obs = _
      rw [List.map_set]
      show (s.lists.map SList.obs).set k
        (l.title, (l.todos.map (fun td => ({ td with completed := true }))).map
          STodo.obs) = _
      rw [List.map_map]
      rfl
    rw [e1, e2, e3, e4, hobs]
    refine congrArg (s.obs.set k) ?_
    show (x.title,
      ((db.todos.map (fun td => if td.list_id == x.id then
        ({ td with completed := true }) else td)).filter
          (fun td => td.list_id == x.id)).map TodoRow.obs) = _
    have hviewx : (db.todos.map (fun td => if td.list_id == x.id then
        ({ td with completed := true }) else td)).filter
          (fun td => td.list_id == x.id)
        = (db.find_todos_for_list x.id).map (fun td =>
            if td.list_id == x.id then ({ td with completed := true }) else td) := by
      rw [filter_map_comm]
      refine congrArg _ ?_
      exact List.filter_congr (fun td _ => by rw [hupres td])
    rw [hviewx, List.map_map]
    have hcomp : (db.find_todos_for_list x.id).map (fun td =>
        TodoRow.obs (if td.list_id == x.id then
          ({ td with completed := true }) else td))
        = (db.find_todos_for_list x.id).map (fun td => (td.title, true)) := by
      refine List.map_congr_left ?_
      intro td htdmem
      have htx : (td.list_id == x.id) = true := (List.mem_filter.mp htdmem).2
      simp [htx, TodoRow.obs]
    have hmain : (db.find_todos_for_list x.id).map (fun td => (td.title, true)) =
        l.todos.map (fun td => (td.title, true)) := by
      have h1 : (db.find_todos_for_list x.id).map (fun td => (td.title, true)) =
          ((db.find_todos_for_list x.id).map TodoRow.obs).map
            (fun p => (p.1, true)) := by
        rw [List.map_map]
        rfl
      have h2 : l.todos.map (fun td => (td.title, true)) =
          (l.todos.map STodo.obs).map (fun p => (p.1, true)) := by
        rw [List.map_map]
        rfl
      rw [h1, hV, ← h2]
    calc ((x.title, (db.find_todos_for_list x.id).map (fun td =>
        TodoRow.obs (if td.list_id == x.id then
          ({ td with completed := true }) else td))) :
            String × List (String × Bool))
        = (x.title, (db.find_todos_for_list x.id).map (fun td => (td.title, true))) := by
          rw [hcomp]
      _ = (l.title, l.todos.map (fun td => (td.title, true))) := by
          rw [hmain, hT]

theorem simStep (db : DB) (s : Sess) (op : Op) (hdb : db.inv) (hs : s.inv)
    (hobs : db.obs = s.obs) (hv : validOp db s op = true) :
    ∃ db2 rd s2 rs, dbStep db op = .ok (db2, rd) ∧ sessStep s op = some (s2, rs)
      ∧ rd.obs = rs.obs ∧ db2.inv ∧ s2.inv ∧ db2.obs = s2.obs := by
  cases op with
  | allLists => exact simAllLists db s hdb hs hobs
  | findList i j => exact simFindList db s i j hdb hs hobs hv
  | createList t => exact simCreateList db s t hdb hs hobs hv
  | updateList i j t => exact simUpdateList db s i j t hdb hs hobs hv
  | deleteList i j => exact simDeleteList db s i j hdb hs hobs hv
  | createTodo i j t => exact simCreateTodo db s i j t hdb hs hobs hv
  | deleteTodo i j ti tj => exact simDeleteTodo db s i j ti tj hdb hs hobs hv
  | updateTodo i j ti tj b => exact simUpdateTodo db s i j ti tj b hdb hs hobs hv
  | markAll i j => exact simMarkAll db s i j hdb hs hobs hv

theorem simTrace (ops : List Op) : ∀ (db : DB) (s : Sess), db.inv → s.inv →
    db.obs = s.obs → validTrace db s ops = true →
    ∃ db2 rds s2 rss, runDB db ops = .ok (db2, rds)
      ∧ runSess s ops = some (s2, rss)
      ∧ rds.map DRes.obs = rss.map SRes.obs
      ∧ db2.inv ∧ s2.inv ∧ db2.obs = s2.obs := by
  induction ops with
  | nil =>
    intro db s hdb hs hobs _
    exact ⟨db, [], s, [], rfl, rfl, rfl, hdb, hs, hobs⟩
  | cons op ops ih =>
    intro db s hdb hs hobs hv
    have hv2 : validOp db s op = true ∧
        (match dbStep db op, sessStep s op with
          | .ok (db2, _), some (s2, _) => validTrace db2 s2 ops
          | _, _ => false) = true := by
      simpa [validTrace, Bool.and_eq_true] using hv
    obtain ⟨hvo, hvt⟩ := hv2
    obtain ⟨db2, rd, s2, rs, hdbs, hss, hro, hdb2, hs2, hobs2⟩ :=
      simStep db s op hdb hs hobs hvo
    rw [hdbs, hss] at hvt
    obtain ⟨db3, rds, s3, rss, h1, h2, h3, h4, h5, h6⟩ :=
      ih db2 s2 hdb2 hs2 hobs2 hvt
    refine ⟨db3, rd :: rds, s3, rs :: rss, ?_, ?_, ?_, h4, h5, h6⟩
    · simp [runDB, hdbs, h1, Except.map]
    · simp [runSess, hss, h2]
    · simp [h3, hro]

/-- C1 (amended): from any pair of well-formed states with equal observable
content, every sequence of validated operations (each operation references
entities that exist correspondingly in both variants, or that both variants
tolerate as absent; created and updated list titles respect the varchar(100)
bound and uniqueness; todo titles respect the length bound) runs successfully
in both variants, yields observably identical results for every read
operation, and leaves both variants in observably identical states.  The
original claim, quantifying over all inputs, fails on a title above the
varchar(100) limit. -/
theorem C1_variant_equivalence (db : DB) (s : Sess) (ops : List Op)
    (hdb : db.inv) (hs : s.inv) (hobs : db.obs = s.obs)
    (hv : validTrace db s ops = true) :
    ∃ db2 rds s2 rss, runDB db ops = .ok (db2, rds)
      ∧ runSess s ops = some (s2, rss)
      ∧ rds.map DRes.obs = rss.map SRes.obs
      ∧ db2.obs = s2.obs := by
  obtain ⟨db2, rds, s2, rss, h1, h2, h3, _, _, h6⟩ :=
    simTrace ops db s hdb hs hobs hv
  exact ⟨db2, rds, s2, rss, h1, h2, h3, h6⟩

/-- C1 witness: the round-trip sequence (create list Groceries, add todo
Milk, complete it, read the list, list all) run from the two fresh stores. -/
theorem C1_variant_equivalence_witness :
    ∃ db2 rds s2 rss,
      runDB DB.init [Op.createList "Groceries", Op.createTodo 1 0 "Milk",
        Op.updateTodo 1 0 1 1 true, Op.findList 1 0, Op.allLists]
        = .ok (db2, rds)
      ∧ runSess Sess.init [Op.createList "Groceries", Op.createTodo 1 0 "Milk",
          Op.updateTodo 1 0 1 1 true, Op.findList 1 0, Op.allLists]
        = some (s2, rss)
      ∧ rds.map DRes.obs = rss.map SRes.obs
      ∧ db2.obs = s2.obs :=
  C1_variant_equivalence DB.init Sess.init
    [Op.createList "Groceries", Op.createTodo 1 0 "Milk",
      Op.updateTodo 1 0 1 1 true, Op.findList 1 0, Op.allLists]
    (by simp [DB.inv, DB.init]) (by simp [Sess.inv, Sess.init]) rfl (by decide)

/-- C1 counterexample: the same single operation sequence (create a list
whose title has 101 characters) makes the relational variant fail on the
varchar(100) column while the session variant succeeds and afterwards shows
one list, so the two variants do not produce identical externally observable
behaviour for every input. -/
theorem C1_counterexample_long_title :
    runDB DB.init [Op.createList longTitle] = .error ()
  ∧ (runSess Sess.init [Op.createList longTitle]).map (fun pr => pr.1.obs)
      = some [(longTitle, [])] := by
  constructor
  · rfl
  · rfl

theorem fk_prop_applyOp {db db2 : DB} {op : DOp} (h : db.applyOp op = .ok db2)
    (hfk : ∀ td ∈ db.todos, ∃ r ∈ db.lists, r.id = td.list_id) :
    ∀ td ∈ db2.todos, ∃ r ∈ db2.lists, r.id = td.list_id := by
  cases op with
  | createList t =>
    rw [DB.applyOp, DB.create_new_list] at h
    split at h
    · have h2 : _ = db2 := Except.ok.inj h
      subst h2
      intro td htd
      rcases hfk td htd with ⟨r, hr, hrid⟩
      exact ⟨r, List.mem_append_left _ hr, hrid⟩
    · exact absurd h (by simp)
  | updateList i t =>
    rw [DB.applyOp, DB.update_list_by_id] at h
    split at h
    · have h2 : db = db2 := Except.ok.inj h
      subst h2
      exact hfk
    · split at h
      · have h2 : _ = db2 := Except.ok.inj h
        subst h2
        intro td htd
        rcases hfk td htd with ⟨r, hr, hrid⟩
        refine ⟨if r.id == i then { r with title := t } else r,
          List.mem_map_of_mem _ hr, ?_⟩
        by_cases hcase : (r.id == i) = true
        · rw [if_pos hcase]
          exact hrid
        · rw [if_neg hcase]
          exact hrid
      · exact absurd h (by simp)
  | deleteList i =>
    rw [DB.applyOp] at h
    have h2 : _ = db2 := Except.ok.inj h
    subst h2
    intro td htd
    have htdf : td ∈ db.todos.filter (fun td2 => td2.list_id != i) := htd
    have htdin : td ∈ db.todos := List.mem_of_mem_filter htdf
    have htdq : (td.list_id != i) = true := (List.mem_filter.mp htdf).2
    rcases hfk td htdin with ⟨r, hr, hrid⟩
    refine ⟨r, List.mem_filter.mpr ⟨hr, ?_⟩, hrid⟩
    rw [hrid]
    exact htdq
  | createTodo i t =>
    rw [DB.applyOp, DB.create_new_todo] at h
    split at h
    · rename_i hcond
      have h2 : _ = db2 := Except.ok.inj h
      subst h2
      intro td htd
      rcases List.mem_append.mp htd with hin | hin
      · exact hfk td hin
      · have he : td = { id := db.next_todo_id, title := t, completed := false, list_id := i } := by simpa using hin
        subst he
        have hany : db.lists.any (fun row => row.id == i) = true := by
          rw [Bool.and_eq_true] at hcond
          exact hcond.2
        rcases List.any_eq_true.mp hany with ⟨r, hr, hre⟩
        exact ⟨r, hr, by simpa using hre⟩
    · exact absurd h (by simp)
  | deleteTodo i ti =>
    rw [DB.applyOp] at h
    have h2 : _ = db2 := Except.ok.inj h
    subst h2
    intro td htd
    exact hfk td (List.mem_of_mem_filter htd)
  | updateTodo i ti b =>
    rw [DB.applyOp] at h
    have h2 : _ = db2 := Except.ok.inj h
    subst h2
    intro td htd
    rcases List.mem_map.mp htd with ⟨td0, h0, he⟩
    rcases hfk td0 h0 with ⟨r, hr, hrid⟩
    refine ⟨r, hr, ?_⟩
    rw [← he, hrid]
    by_cases hcase : (td0.list_id == i && td0.id == ti) = true
    · rw [if_pos hcase]
    · rw [if_neg hcase]
  | markAll i =>
    rw [DB.applyOp] at h
    have h2 : _ = db2 := Except.ok.inj h
    subst h2
    intro td htd
    rcases List.mem_map.mp htd with ⟨td0, h0, he⟩
    rcases hfk td0 h0 with ⟨r, hr, hrid⟩
    refine ⟨r, hr, ?_⟩
    rw [← he, hrid]
    by_cases hcase : (td0.list_id == i) = true
    · rw [if_pos hcase]
    · rw [if_neg hcase]

theorem fk_prop_run (ops : List DOp) : ∀ {db fin : DB}, DB.run db ops = .ok fin →
    (∀ td ∈ db.todos, ∃ r ∈ db.lists, r.id = td.list_id) →
    ∀ td ∈ fin.todos, ∃ r ∈ fin.lists, r.id = td.list_id := by
  induction ops with
  | nil =>
    intro db fin h hfk
    have h2 : db = fin := Except.ok.inj h
    subst h2
    exact hfk
  | cons op ops ih =>
    intro db fin h hfk
    rw [DB.run] at h
    rcases happ : db.applyOp op with e | db2
    · rw [happ] at h
      exact absurd h (by simp)
    · rw [happ] at h
      exact ih h (fk_prop_applyOp happ hfk)

theorem fkOk_iff (db : DB) : db.fkOk = true ↔
    ∀ td ∈ db.todos, ∃ r ∈ db.lists, r.id = td.list_id := by
  rw [DB.fkOk, List.all_eq_true]
  constructor
  · intro h td htd
    rcases List.any_eq_true.mp (h td htd) with ⟨r, hr, hre⟩
    exact ⟨r, hr, by simpa using hre⟩
  · intro h td htd
    rcases h td htd with ⟨r, hr, hre⟩
    exact List.any_eq_true.mpr ⟨r, hr, by simpa using hre⟩

/-- C10 (amended): in the relational variant every stored todo row carries a
list_id naming an existing list row, after every successful operation
sequence from the fresh store; a created todo records exactly the list id it
was created under; the session variant instead keeps no list_id key at all in
its todo dicts, so ownership there is by containment and the original claim
fails for it. -/
theorem C10_todo_ownership :
    (∀ (ops : List DOp) (fin : DB), DB.run DB.init ops = .ok fin →
      fin.fkOk = true)
  ∧ (∀ (db : DB) (i : Nat) (t : String) (db2 : DB),
      DB.create_new_todo db i t = .ok db2 →
      db2.todos = db.todos ++ [{ id := db.next_todo_id, title := t, completed := false, list_id := i }])
  ∧ (∀ td : STodo, td.toDict.map Prod.fst = ["id", "title", "completed"]) := by
  refine ⟨?_, ?_, fun td => rfl⟩
  · intro ops fin h
    rw [fkOk_iff]
    exact fk_prop_run ops h (by simp [DB.init])
  · intro db i t db2 h
    rw [DB.create_new_todo] at h
    split at h
    · have h2 : _ = db2 := Except.ok.inj h
      subst h2
      rfl
    · exact absurd h (by simp)

/-- C10 witness: the invariant evaluated after creating a list and one todo
from the fresh relational store. -/
theorem C10_todo_ownership_witness :
    DB.fkOk (DB.mk [ListRow.mk 1 "A"] [TodoRow.mk 1 "M" false 1] 2 2) = true :=
  C10_todo_ownership.1 [DOp.createList "A", DOp.createTodo 1 "M"] _ rfl

end Todos
